import Mathlib

/-!
gdal_constrast_stretch: binning, no-data masks and stretch plans.

A shallow embedding of `gdal_constrast_stretch.go` and `ndv.go`.

Number model.  A Go `float64` is embedded as `F64`: the three special values
NaN, -Inf, +Inf and the finite values, which are exact rationals.  The special
values follow IEEE-754 (NaN propagates, Inf - Inf = NaN, 0 * Inf = NaN, every
comparison with NaN is false).  Finite arithmetic is exact: rounding, overflow
to infinity and the sign of zero are not modelled, so every statement below
about finite values is a statement in exact arithmetic.  Go's `int` and `uint`
are `Int` and `Nat`; `uint8` arithmetic is written with an explicit `% 256`.
-/

namespace Stretch

/-! ## float64 -/

/-- A float64 value: NaN, -Inf, +Inf or a finite (exact rational) number. -/
inductive F64 where
  | nan : F64
  | ninf : F64
  | pinf : F64
  | fin (q : ℚ) : F64
  deriving DecidableEq

namespace F64

/-- Unary minus. -/
def neg : F64 → F64
  | nan => nan
  | ninf => pinf
  | pinf => ninf
  | fin q => fin (-q)

/-- Addition: Inf + (-Inf) is NaN. -/
def add : F64 → F64 → F64
  | nan, _ => nan
  | _, nan => nan
  | fin a, fin b => fin (a + b)
  | pinf, ninf => nan
  | ninf, pinf => nan
  | pinf, _ => pinf
  | ninf, _ => ninf
  | fin _, pinf => pinf
  | fin _, ninf => ninf

/-- Subtraction `a - b`, which is `a + (-b)` on every float64. -/
def sub (a b : F64) : F64 := add a (neg b)

/-- The infinity of the given sign. -/
def inf (positive : Bool) : F64 := if positive then pinf else ninf

/-- Multiplication: 0 * Inf is NaN. -/
def mul : F64 → F64 → F64
  | nan, _ => nan
  | _, nan => nan
  | fin a, fin b => fin (a * b)
  | pinf, pinf => pinf
  | ninf, ninf => pinf
  | pinf, ninf => ninf
  | ninf, pinf => ninf
  | pinf, fin b => if b = 0 then nan else inf (decide (0 < b))
  | ninf, fin b => if b = 0 then nan else inf (decide (b < 0))
  | fin a, pinf => if a = 0 then nan else inf (decide (0 < a))
  | fin a, ninf => if a = 0 then nan else inf (decide (a < 0))

/-- Division: 0 / 0 and Inf / Inf are NaN, a non-zero finite value divided by
zero is the infinity of the dividend's sign (zero is unsigned in this model). -/
def div : F64 → F64 → F64
  | nan, _ => nan
  | _, nan => nan
  | fin a, fin b =>
    if b = 0 then (if a = 0 then nan else inf (decide (0 < a))) else fin (a / b)
  | fin _, pinf => fin 0
  | fin _, ninf => fin 0
  | pinf, fin b => inf (decide (0 ≤ b))
  | ninf, fin b => inf (decide (b < 0))
  | pinf, pinf => nan
  | pinf, ninf => nan
  | ninf, pinf => nan
  | ninf, ninf => nan

/-- The comparison `a < b`; false when either side is NaN. -/
def lt : F64 → F64 → Bool
  | nan, _ => false
  | _, nan => false
  | fin a, fin b => decide (a < b)
  | ninf, ninf => false
  | ninf, _ => true
  | pinf, _ => false
  | fin _, ninf => false
  | fin _, pinf => true

/-- The comparison `a <= b`; false when either side is NaN. -/
def le : F64 → F64 → Bool
  | nan, _ => false
  | _, nan => false
  | fin a, fin b => decide (a ≤ b)
  | ninf, _ => true
  | pinf, pinf => true
  | pinf, _ => false
  | fin _, ninf => false
  | fin _, pinf => true

/-- The comparison `a > b`. -/
def gt (a b : F64) : Bool := lt b a

/-- The comparison `a >= b`. -/
def ge (a b : F64) : Bool := le b a

/-- The test `math.IsNaN`. -/
def isNaN : F64 → Bool
  | nan => true
  | _ => false

/-- The test `math.IsInf(v, sign)`: sign > 0 asks for +Inf, sign < 0 for -Inf,
sign = 0 for either. -/
def isInf (v : F64) (sign : Int) : Bool :=
  match v with
  | pinf => decide (0 ≤ sign)
  | ninf => decide (sign ≤ 0)
  | _ => false

/-- Rounding of a rational to the nearest integer, halves away from zero. -/
def roundQ (q : ℚ) : Int := if 0 ≤ q then ⌊q + 1 / 2⌋ else -⌊-q + 1 / 2⌋

/-- The function `math.Round`: nearest integer, halves away from zero; the
special values are returned unchanged. -/
def round : F64 → F64
  | fin q => fin (roundQ q)
  | x => x

/-- Truncation of a rational toward zero. -/
def truncQ (q : ℚ) : Int := if 0 ≤ q then ⌊q⌋ else -⌊-q⌋

/-- The conversion `int(x)` of a finite value: truncation toward zero.  Go
leaves the conversion of NaN and of the infinities implementation-dependent;
`ToBin`, the one caller, reaches it with finite values only, and the value 0
given here for the special values is never used. -/
def toInt : F64 → Int
  | fin q => truncQ q
  | _ => 0

instance : Add F64 := ⟨add⟩
instance : Sub F64 := ⟨sub⟩
instance : Mul F64 := ⟨mul⟩
instance : Div F64 := ⟨div⟩
instance : Neg F64 := ⟨neg⟩
instance : NatCast F64 := ⟨fun n => fin n⟩
instance : IntCast F64 := ⟨fun n => fin n⟩

end F64

/-- Conditions that end the process: the `log.Fatal` calls of the program and
Go's run-time panics. -/
inductive Fault where
  | nanInToBin : Fault
  | intervalType : Fault
  | unrecognizedDatatype : Fault
  | noWindow : Fault
  | indexOutOfRange : Fault
  | negativeLen : Fault
  | oneMode : Fault
  | missingSrcfn : Fault
  | missingDstfn : Fault
  | wrongArgs : Fault
  deriving DecidableEq

/-! ## Binning -/

/-- The struct `Binning`, over the number type `α` of its floating fields. -/
structure Binning (α : Type) where
  Nbins : Int
  Offset : α
  Scale : α

/-- The method `Binning.ToBin`. -/
def Binning.ToBin (self : Binning F64) (v : F64) : Except Fault Int :=
  if v.isInf (-1) then .ok 0
  else if v.isInf 1 then .ok (self.Nbins - 1)
  else
    let bin_dbl := F64.round ((v - self.Offset) / self.Scale)
    if bin_dbl.isNaN then .error .nanInToBin
    else if F64.lt bin_dbl (F64.fin 0) then .ok 0
    else if F64.gt bin_dbl ((self.Nbins : F64) - (F64.fin 1)) then .ok (self.Nbins - 1)
    else .ok bin_dbl.toInt

/-- The method `Binning.FromBin`. -/
def Binning.FromBin {α : Type} [Mul α] [Add α] [IntCast α] (self : Binning α) (i : Int) : α :=
  (i : α) * self.Scale + self.Offset

/-! ## The raster library's data types

`gdal.DataType` belongs to the GDAL binding the program imports, not to the
program: an integer type whose constants are GDAL's `GDT_*` codes, with
`Size()` returning `GDALGetDataTypeSize`, the width in bits. -/

/-- The type `gdal.DataType`, a named `int`. -/
abbrev DataType := Int

namespace GDT

def Unknown : DataType := 0
def Byte : DataType := 1
def UInt16 : DataType := 2
def Int16 : DataType := 3
def UInt32 : DataType := 4
def Int32 : DataType := 5
def Float32 : DataType := 6
def Float64 : DataType := 7
def CInt16 : DataType := 8
def CInt32 : DataType := 9
def CFloat32 : DataType := 10
def CFloat64 : DataType := 11

end GDT

/-- The method `DataType.Size()`: the width of the type in bits, 0 for
`Unknown` and for a code that names no type. -/
def DataType.Size (dt : DataType) : Nat :=
  if dt = GDT.Byte then 8
  else if dt = GDT.UInt16 ∨ dt = GDT.Int16 then 16
  else if dt = GDT.UInt32 ∨ dt = GDT.Int32 ∨ dt = GDT.Float32 ∨ dt = GDT.CInt16 then 32
  else if dt = GDT.Float64 ∨ dt = GDT.CInt32 ∨ dt = GDT.CFloat32 then 64
  else if dt = GDT.CFloat64 then 128
  else 0

/-! ## No-data rules (ndv.go) -/

/-- A Go `interface{}` value, by dynamic type: the types the type switches and
type assertions of ndv.go name, and `gdal.DataType`, which they do not name. -/
inductive Dyn where
  | byte (v : Nat) : Dyn
  | uint16 (v : Nat) : Dyn
  | int16 (v : Int) : Dyn
  | int32 (v : Int) : Dyn
  | uint32 (v : Nat) : Dyn
  | float32 (x : F64) : Dyn
  | float64 (x : F64) : Dyn
  | complex64 (re im : F64) : Dyn
  | complex128 (re im : F64) : Dyn
  | dataType (dt : DataType) : Dyn

/-- The struct `NdvSlab`; an interval `[2]float64` is a pair (min, max). -/
structure NdvSlab where
  RangeByBand : List (F64 × F64)

/-- The method `NdvSlab.Empty`. -/
def NdvSlab.Empty (self : NdvSlab) : Bool := self.RangeByBand.length == 0

/-- The closed-interval test `x >= interval[0] && x <= interval[1]`. -/
def inInterval (interval : F64 × F64) (x : F64) : Bool :=
  F64.ge x interval.1 && F64.le x interval.2

/-- The function `contains_templated`: a type switch on `p`; a dynamic type
that no case names ends in `log.Fatal`. -/
def contains_templated (interval : F64 × F64) (p : Dyn) : Except Fault Bool :=
  match p with
  | .byte v => .ok (inInterval interval (v : F64))
  | .uint16 v => .ok (inInterval interval (v : F64))
  | .int16 v => .ok (inInterval interval (v : F64))
  | .int32 v => .ok (inInterval interval (v : F64))
  | .uint32 v => .ok (inInterval interval (v : F64))
  | .float32 x => .ok (inInterval interval x)
  | .float64 x => .ok (inInterval interval x)
  | .complex64 re _ => .ok (inInterval interval re)
  | .complex128 re _ => .ok (inInterval interval re)
  | .dataType _ => .error .intervalType

/-- The struct `NdvDef`. -/
structure NdvDef where
  Slabs : List NdvSlab
  Invert : Bool

/-- The method `NdvDef.Empty`. -/
def NdvDef.Empty (self : NdvDef) : Bool := self.Slabs.length == 0

/-- The function `gdal_scalar_pointer_isnan`: for each data type a type
assertion on `p`, whose success flag is the result; the value of `p` is not
looked at. -/
def gdal_scalar_pointer_isnan (p : Dyn) (dt : DataType) : Except Fault Bool :=
  if dt = GDT.Byte then .ok (match p with | .byte _ => true | _ => false)
  else if dt = GDT.UInt16 then .ok (match p with | .uint16 _ => true | _ => false)
  else if dt = GDT.Int16 then .ok (match p with | .int16 _ => true | _ => false)
  else if dt = GDT.UInt32 then .ok (match p with | .uint32 _ => true | _ => false)
  else if dt = GDT.Int32 then .ok (match p with | .int32 _ => true | _ => false)
  else if dt = GDT.Float32 then .ok (match p with | .float32 _ => true | _ => false)
  else if dt = GDT.Float64 then .ok (match p with | .float64 _ => true | _ => false)
  else if dt = GDT.CFloat32 then .ok (match p with | .complex64 _ _ => true | _ => false)
  else if dt = GDT.CFloat64 then .ok (match p with | .complex128 _ _ => true | _ => false)
  else .error .unrecognizedDatatype

/-- The big-endian byte image `binary.Write` gives a float64: eight bytes.  The
bytes themselves are left open; the program never reads their values. -/
structure ByteImage where
  bytes : F64 → List Nat
  length_eq : ∀ x, (bytes x).length = 8

/-- The function `convertToBytes`, at a float64 argument. -/
def convertToBytes (enc : ByteImage) (n : F64) : List Nat := enc.bytes n

/-- The first loop of `GetNdvMaskB`: one byte image and one `(dt / 8).Size()`
per band; `dt_list[i]` panics when `dt_list` is shorter than `bands`. -/
def maskSetup (enc : ByteImage) (bands : List F64) (dt_list : List DataType) :
    Except Fault (List (List Nat) × List Nat) :=
  (List.range bands.length).foldlM
    (fun (acc : List (List Nat) × List Nat) i =>
      match bands[i]?, dt_list[i]? with
      | some v, some dt =>
        .ok (acc.1 ++ [convertToBytes enc v], acc.2 ++ [DataType.Size (Int.tdiv dt 8)])
      | _, _ => .error .indexOutOfRange)
    ([], [])

/-- The NaN loop of one pixel: the mask starts at 0 and is set to 1 by every
band for which `gdal_scalar_pointer_isnan(in_p[j][0], dt_list[j])` holds. -/
def nanMask (in_p : List (List Nat)) (dt_list : List DataType) (nbands : Nat) :
    Except Fault Nat :=
  (List.range nbands).foldlM
    (fun (m : Nat) j =>
      match in_p[j]?, dt_list[j]? with
      | some (b :: _), some dt =>
        (gdal_scalar_pointer_isnan (Dyn.byte b) dt).map (fun r => if r then 1 else m)
      | _, _ => .error .indexOutOfRange)
    0

/-- The band loop of one slab: `all_match` starts at 1 and is cleared by every
band for which `contains_templated(v.RangeByBand[k], dt_list[j])` is false. -/
def slabMatch (v : NdvSlab) (dt_list : List DataType) (nbands : Nat) : Except Fault Nat :=
  (List.range nbands).foldlM
    (fun (all_match : Nat) j =>
      let k := if v.RangeByBand.length = 1 then 0 else j
      match v.RangeByBand[k]?, dt_list[j]? with
      | some interval, some dt =>
        (contains_templated interval (Dyn.dataType dt)).map
          (fun c => if !c then 0 else all_match)
      | _, _ => .error .indexOutOfRange)
    1

/-- The slab loop of one pixel: `mask_out[pix_idx] |= all_match` for each slab. -/
def slabsMask (slabs : List NdvSlab) (dt_list : List DataType) (nbands : Nat) (m : Nat) :
    Except Fault Nat :=
  slabs.foldlM (fun (m : Nat) v => (slabMatch v dt_list nbands).map (fun a => m ||| a)) m

/-- The inversion step: 0 becomes 1 and every other value 0. -/
def invertMask (m : Nat) : Nat := if m = 0 then 1 else 0

/-- The last loop of one pixel: `in_p[band_idx] = in_p[band_idx][dt_sizes[band_idx]:]`,
a panic when the size exceeds what is left of the slice. -/
def advance (in_p : List (List Nat)) (dt_sizes : List Nat) (nbands : Nat) :
    Except Fault (List (List Nat)) :=
  (List.range nbands).foldlM
    (fun (acc : List (List Nat)) band_idx =>
      match acc[band_idx]?, dt_sizes[band_idx]? with
      | some p, some sz =>
        if sz ≤ p.length then .ok (acc.set band_idx (p.drop sz)) else .error .indexOutOfRange
      | _, _ => .error .indexOutOfRange)
    in_p

/-- The pixel loop of `GetNdvMaskB`; the result lists the values written to
`mask_out[0 .. num_pixels - 1]` (the callers pass a buffer at least that long). -/
def pixelLoop (slabs : List NdvSlab) (invert : Bool) (dt_list : List DataType)
    (dt_sizes : List Nat) (nbands : Nat) : Nat → List (List Nat) → Except Fault (List Nat)
  | 0, _ => .ok []
  | n + 1, in_p => do
    let m ← nanMask in_p dt_list nbands
    let m ← slabsMask slabs dt_list nbands m
    let m := if invert then invertMask m else m
    let in_p ← advance in_p dt_sizes nbands
    let rest ← pixelLoop slabs invert dt_list dt_sizes nbands n in_p
    pure (m :: rest)

/-- The method `NdvDef.GetNdvMaskB`. -/
def NdvDef.GetNdvMaskB (enc : ByteImage) (self : NdvDef) (bands : List F64)
    (dt_list : List DataType) (num_pixels : Nat) : Except Fault (List Nat) := do
  let (in_p, dt_sizes) ← maskSetup enc bands dt_list
  pixelLoop self.Slabs self.Invert dt_list dt_sizes bands.length num_pixels in_p

/-- The method `NdvDef.GetNdvMaskC`: the first value of each band and the data
type Float64 for each band go to `GetNdvMaskB`; `v[0]` panics on an empty band. -/
def NdvDef.GetNdvMaskC (enc : ByteImage) (self : NdvDef) (bands : List (List F64))
    (num_pixels : Nat) : Except Fault (List Nat) := do
  let band_p ← bands.mapM (fun v =>
    match v with
    | x :: _ => (Except.ok x : Except Fault F64)
    | [] => .error .indexOutOfRange)
  let dt_list := bands.map (fun _ => GDT.Float64)
  self.GetNdvMaskB enc band_p dt_list num_pixels

/-- A byte image made of zero bytes: `ByteImage` is inhabited. -/
def zeroImage : ByteImage := ⟨fun _ => List.replicate 8 0, fun _ => by simp⟩

/-! ## Histograms -/

instance : Zero F64 := ⟨F64.fin 0⟩

/-- The struct `Histogram`, which embeds a `Binning`.  `Counts` has `Nbins`
entries (it is allocated so by `ComputeHistogram`); the loops below read
`Counts[i]` for i < Nbins with a default that is never used on such a
histogram.  The `uint` counters count pixels and are not wrapped. -/
structure Histogram (α : Type) extends Binning α where
  Max : α
  Min : α
  Mean : α
  Stddev : α
  DataCount : Nat
  NdvCount : Nat
  Counts : List Nat

/-- The statistics loops that end `ComputeHistogram`, for one band, over the
values `val i` of the bins (`FromBin(i)` in the program): `DataCount` grows by
every count, `Mean` is the count-weighted sum over `DataCount`, `Stddev` the
square root of the count-weighted squared deviation over `DataCount`.
`sqrt` stands for `math.Sqrt`. -/
def bandStats {α : Type} [Zero α] [Add α] [Sub α] [Mul α] [Div α] [NatCast α]
    (sqrt : α → α) (val : Int → α) (Counts : List Nat) (Nbins : Int) (DataCount : Nat) :
    Nat × α × α :=
  let idx := List.range Nbins.toNat
  let DataCount := idx.foldl (fun d i => d + Counts.getD i 0) DataCount
  let accum := idx.foldl (fun a (i : Nat) => a + val (i : Int) * ((Counts.getD i 0 : Nat) : α)) 0
  let Mean := accum / (DataCount : α)
  let var_accum := idx.foldl
    (fun a (i : Nat) =>
      a + (val (i : Int) - Mean) * (val (i : Int) - Mean) * ((Counts.getD i 0 : Nat) : α)) 0
  (DataCount, Mean, sqrt (var_accum / (DataCount : α)))

/-- The last loop of `ComputeHistogram` on one band's histogram. -/
def summarise {α : Type} [Zero α] [Add α] [Sub α] [Mul α] [Div α] [NatCast α] [IntCast α]
    (sqrt : α → α) (hg : Histogram α) : Histogram α :=
  let r := bandStats sqrt hg.toBinning.FromBin hg.Counts hg.Nbins hg.DataCount
  { hg with DataCount := r.1, Mean := r.2.1, Stddev := r.2.2 }

/-! ## Stretch plans -/

/-- The deviation policy of `Run`: `(lin_scales, lin_offsets)` of one band. -/
def deviationParams {α : Type} [Zero α] [Sub α] [Div α] [DecidableEq α]
    (hg : Histogram α) (DstAvg DstStddev : α) : α × α :=
  let scale := if hg.Stddev = 0 then 0 else DstStddev / hg.Stddev
  (scale, hg.Mean - DstAvg / scale)

/-- The linear map of the apply loop, `(value - offset) * scale`. -/
def linearMap {α : Type} [Sub α] [Mul α] (scale offset value : α) : α :=
  (value - offset) * scale

/-- The conversion `uint(x)`: truncation toward zero of a value that fits; Go
leaves every other conversion implementation-dependent, and `impl` stands for
what the platform gives then. -/
def F64.toUint (impl : Nat) : F64 → Nat
  | .fin q => if 0 ≤ F64.truncQ q ∧ F64.truncQ q < 2 ^ 64 then (F64.truncQ q).toNat
    else impl % 2 ^ 64
  | _ => impl % 2 ^ 64

/-- The conversion `uint8(x)` of a float64, as `F64.toUint`. -/
def F64.toUint8 (impl : Nat) : F64 → Nat
  | .fin q => if 0 ≤ F64.truncQ q ∧ F64.truncQ q < 256 then (F64.truncQ q).toNat
    else impl % 256
  | _ => impl % 256

/-- The conversion `uint8(n)` of an `int` variable: the low eight bits. -/
def toUint8 (n : Int) : Nat := (n % 256).toNat

/-- The search loop of `get_scale_from_percentile` over the bin indices still
to visit, with the running `cnt`, `from_idx` and `to_idx`; the `break` ends it. -/
def windowScan (Counts : List Nat) (start_count end_count : Nat) :
    List Nat → Nat → Int → Int → Int × Int
  | [], _, from_idx, to_idx => (from_idx, to_idx)
  | i :: rest, cnt, from_idx, to_idx =>
    let from_idx := if cnt ≤ start_count then (i : Int) else from_idx
    let cnt := cnt + Counts.getD i 0
    if cnt ≤ end_count then windowScan Counts start_count end_count rest cnt from_idx i
    else (from_idx, to_idx)

/-- The function `get_scale_from_percentile`; the result is
`(*scale_out, *offset_out)`. -/
def get_scale_from_percentile (impl : Nat) (histogram : Histogram F64) (output_range : Int)
    (from_percentile to_percentile : F64) : Except Fault (F64 × F64) :=
  let start_count := F64.toUint impl ((histogram.DataCount : F64) * from_percentile)
  let end_count := F64.toUint impl ((histogram.DataCount : F64) * to_percentile)
  let found := windowScan histogram.Counts start_count end_count
    (List.range histogram.Nbins.toNat) 0 (-1) (-1)
  if found.1 < 0 ∨ found.2 < 0 then .error .noWindow
  else
    let from_idx := if found.1 = found.2 then 0 else found.1
    let to_idx := if found.1 = found.2 then histogram.Nbins - 1 else found.2
    let from_val := histogram.toBinning.FromBin from_idx
    let to_val := histogram.toBinning.FromBin to_idx
    .ok (((output_range - 1 : Int) : F64) / to_val - from_val, from_val)

/-- The built-in `copy(dst, src)`: the first min(len dst, len src) elements
of `src` overwrite those of `dst`; the result is the new `dst` and the number
of elements copied. -/
def goCopy (dst src : List Nat) : List Nat × Nat :=
  (src.take (min dst.length src.length) ++ dst.drop (min dst.length src.length),
    min dst.length src.length)

/-- The inner loop of `invert_histogram`:
`for j < output_range-1 && dst_total < src_total`, with `bound` the value of
`output_range-1`; `j` stays below `bound`, a uint8, so `j++` does not wrap. -/
def invertInner (dst_h : List F64) (pixel_count : Nat) (bound : Nat) (src_total : F64)
    (j : Nat) (dst_total : F64) : Except Fault (Nat × F64) :=
  if j < bound ∧ F64.lt dst_total src_total = true then
    match dst_h[j + 1]? with
    | some d =>
      invertInner dst_h pixel_count bound src_total (j + 1) (dst_total + d * (pixel_count : F64))
    | none => .error .indexOutOfRange
  else .ok (j, dst_total)
termination_by bound - j
decreasing_by omega

/-- The outer loop of `invert_histogram` over the entries of `src_h` still to
visit; the result lists `out_h`. -/
def invertLoop (dst_h : List F64) (pixel_count : Nat) (bound : Nat) :
    List Nat → Nat → F64 → F64 → Except Fault (List Nat)
  | [], _, _, _ => .ok []
  | c :: rest, j, src_total, dst_total => do
    let r ← invertInner dst_h pixel_count bound (src_total + (c : F64)) j dst_total
    let out ← invertLoop dst_h pixel_count bound rest r.1 (src_total + (c : F64)) r.2
    pure (j :: out)

/-- The function `invert_histogram`.  `src_h` is declared and never assigned:
`copy(src_h_in.Counts, src_h)` has the histogram's counts as destination and
the nil slice `src_h` as source.  `output_range` is a uint8. -/
def invert_histogram (src_h_in : Histogram F64) (dst_h : List F64) (output_range : Nat) :
    Except Fault (List Nat) :=
  let src_h : List Nat := []
  let _copied := goCopy src_h_in.Counts src_h
  let pixel_count := src_h.foldl (fun a c => a + c) 0
  invertLoop dst_h pixel_count ((output_range + 255) % 256) src_h 0 (F64.fin 0) (F64.fin 0)

/-- The function `gen_gaussian`; `exp` stands for `math.Exp`. -/
def gen_gaussian (exp : F64 → F64) (variance : F64) (bin_count : Int) : List F64 :=
  let arr := (List.range bin_count.toNat).map (fun i =>
    if variance = F64.fin 0 then F64.fin 1
    else exp (-((((i : Int) - Int.tdiv bin_count 2 : Int) : F64) / variance)
      * ((((i : Int) - Int.tdiv bin_count 2 : Int) : F64) / variance)))
  let total := arr.foldl (fun t a => t + a) (F64.fin 0)
  arr.map (fun a => a / total)

/-- The function `invert_histogram_to_gaussian`. -/
def invert_histogram_to_gaussian (exp : F64 → F64) (histogram_in : Histogram F64)
    (variance : F64) (output_range : Int) : Except Fault (List Nat) :=
  invert_histogram histogram_in (gen_gaussian exp variance output_range) (toUint8 output_range)

/-! ## The apply step -/

/-- The OutNdv bump, written out twice in `Run` (on the table entries and on
the linear result): a byte equal to `OutNdv` is incremented when
`OutNdv < uint8(output_range)/2` and decremented otherwise, in uint8
arithmetic. -/
def avoidOutNdv (OutNdv : Nat) (output_range : Int) (v : Nat) : Nat :=
  if v = OutNdv then
    (if OutNdv < toUint8 output_range / 2 then (v + 1) % 256 else (v + 255) % 256)
  else v

/-- The table post-processing step of `Run`. -/
def tablePostprocess (use_table : Bool) (ndv_def : NdvDef) (OutNdv : Nat) (output_range : Int)
    (xform_table : List (List Nat)) : List (List Nat) :=
  if use_table then
    if !ndv_def.Empty then
      xform_table.map (fun t => t.map (fun va => avoidOutNdv OutNdv output_range va))
    else xform_table
  else xform_table

/-- The body of the linear apply loop of `Run` for one pixel: `ndv` is
`ndv_mask[i]`, `value` is the input pixel, the result the output byte. -/
def linearPixel (impl : Nat) (OutNdv : Nat) (output_range : Int) (scale offset : F64)
    (ndv : Nat) (value : F64) : Nat :=
  if ndv ≠ 0 then OutNdv
  else
    let out_dbl := linearMap scale offset value
    let v :=
      if F64.lt out_dbl (F64.fin 0) then 0
      else if F64.gt out_dbl ((output_range : F64) - F64.fin 1) then
        (toUint8 output_range + 255) % 256
      else F64.toUint8 impl out_dbl
    avoidOutNdv OutNdv output_range v

/-- The byte the linear apply loop computes for a data pixel before the OutNdv
bump: the three-way branch on `out_dbl` inside `linearPixel`. -/
def linearByte (impl : Nat) (output_range : Int) (scale offset value : F64) : Nat :=
  if F64.lt (linearMap scale offset value) (F64.fin 0) then 0
  else if F64.gt (linearMap scale offset value) ((output_range : F64) - F64.fin 1) then
    (toUint8 output_range + 255) % 256
  else F64.toUint8 impl (linearMap scale offset value)

/-- Spec side of the linear apply step: `clamp(x, lo, hi)`. -/
def specClamp (x lo hi : Int) : Int := if x < lo then lo else if hi < x then hi else x

/-- Spec side of the linear apply step, on finite numbers:
`clamp(round_toward_zero((value - offset) * scale), 0, output_range - 1)`. -/
def specLinearByte (output_range : Int) (scale offset value : ℚ) : Int :=
  specClamp (F64.truncQ ((value - offset) * scale)) 0 (output_range - 1)

/-- The body of the table apply loop of `Run` for one pixel: `xfrom` is the
band's table, the result the output byte; the lookup panics when the index is
outside the table. -/
def tablePixel (OutNdv : Nat) (xfrom : List Nat) (binning : Binning F64) (ndv : Nat)
    (value : F64) : Except Fault Nat :=
  if ndv ≠ 0 then .ok OutNdv
  else
    match binning.ToBin value with
    | .error e => .error e
    | .ok bin =>
      if 0 ≤ bin then
        match xfrom[bin.toNat]? with
        | some b => .ok b
        | none => .error .indexOutOfRange
      else .error .indexOutOfRange

/-! ## Binning selection -/

/-- The binning `Run` selects for a band of data type `dt`; `minmax` is the
band's entry of `ComputeMinmax`, used by the default case only. -/
def selectBinning (dt : DataType) (minmax : F64 × F64) : Binning F64 :=
  if dt = GDT.Byte then { Nbins := 256, Offset := F64.fin 0, Scale := F64.fin 1 }
  else if dt = GDT.UInt16 then { Nbins := 65536, Offset := F64.fin 0, Scale := F64.fin 1 }
  else if dt = GDT.Int16 then { Nbins := 65536, Offset := F64.fin (-32768), Scale := F64.fin 1 }
  else
    { Nbins := 10000000, Offset := minmax.1,
      Scale := (minmax.2 - minmax.1) / (((10000000 : Int) - 1 : Int) : F64) }

/-- The pixel body of `ComputeMinmax` for one band: the state is the band's
`minmax` entry and its `got_data` flag. -/
def minmaxPixel (st : (F64 × F64) × Bool) (ndv : Nat) (v : F64) : (F64 × F64) × Bool :=
  if ndv ≠ 0 then st
  else if v.isNaN || v.isInf 1 then st
  else
    let mm := if !st.2 then (v, v) else st.1
    let mm := if F64.lt v mm.1 then (v, mm.2) else mm
    let mm := if F64.gt v mm.2 then (mm.1, v) else mm
    (mm, true)

/-- The function `ComputeMinmax` on one band: the band's pixels, each with its
no-data mask, in traversal order. -/
def ComputeMinmaxBand (pixels : List (Nat × F64)) : F64 × F64 :=
  (pixels.foldl (fun st p => minmaxPixel st p.1 p.2) ((F64.fin 0, F64.fin 0), false)).1

/-! ## The accumulation pass of `ComputeHistogram` -/

/-- The allocation of one band's histogram: zero fields and `Nbins` zero
counts; `make` panics on a negative length. -/
def allocHistogram (binning : Binning F64) : Except Fault (Histogram F64) :=
  if binning.Nbins < 0 then .error .negativeLen
  else
    .ok { toBinning := binning, Max := F64.fin 0, Min := F64.fin 0, Mean := F64.fin 0,
          Stddev := F64.fin 0, DataCount := 0, NdvCount := 0,
          Counts := List.replicate binning.Nbins.toNat 0 }

/-- The increment `Counts[i]++`. -/
def bumpCount (Counts : List Nat) (i : Nat) : List Nat :=
  Counts.set i (Counts.getD i 0 + 1)

/-- The running minimum of the accumulation pass after a data pixel `v`: the
first valid pixel sets `Min = v`, then `if v < Min then Min = v`. -/
def trackMin (first_valid_pixel : Bool) (Min v : F64) : F64 :=
  if F64.lt v (if first_valid_pixel then Min else v) then v
  else (if first_valid_pixel then Min else v)

/-- The running maximum of the accumulation pass after a data pixel `v`: the
first valid pixel sets `Max = v`, then `if v > Max then Max = v`. -/
def trackMax (first_valid_pixel : Bool) (Max v : F64) : F64 :=
  if F64.gt v (if first_valid_pixel then Max else v) then v
  else (if first_valid_pixel then Max else v)

/-- The pixel body of the accumulation pass for one band: the state is the
band's histogram and its `first_valid_pixel` flag, `ndv` is `ndv_mask[i]` and
`v` the pixel. -/
def accumPixel (st : Histogram F64 × Bool) (ndv : Nat) (v : F64) :
    Except Fault (Histogram F64 × Bool) :=
  if ndv ≠ 0 then .ok ({ st.1 with NdvCount := st.1.NdvCount + 1 }, st.2)
  else
    match st.1.toBinning.ToBin v with
    | .error e => .error e
    | .ok bin =>
      if 0 ≤ bin ∧ bin.toNat < st.1.Counts.length then
        .ok ({ st.1 with
                Counts := bumpCount st.1.Counts bin.toNat,
                Min := trackMin st.2 st.1.Min v,
                Max := trackMax st.2 st.1.Max v }, true)
      else .error .indexOutOfRange

/-- The accumulation pass over one band's pixels, each with its no-data mask,
in traversal order. -/
def accumulate : List (Nat × F64) → Histogram F64 × Bool → Except Fault (Histogram F64 × Bool)
  | [], st => .ok st
  | p :: rest, st =>
    match accumPixel st p.1 p.2 with
    | .error e => .error e
    | .ok st1 => accumulate rest st1

/-- The function `ComputeHistogram` on one band: allocation, the accumulation
pass and the statistics loops.  `sqrt` stands for `math.Sqrt`. -/
def ComputeHistogramBand (sqrt : F64 → F64) (binning : Binning F64)
    (pixels : List (Nat × F64)) : Except Fault (Histogram F64) :=
  match allocHistogram binning with
  | .error e => .error e
  | .ok hg =>
    match accumulate pixels (hg, false) with
    | .error e => .error e
    | .ok st => .ok (summarise sqrt st.1)

/-- The window the search of `get_scale_from_percentile` finds: `(from_idx, to_idx)`
as they stand after the loop, before the fatal check and the fallback. -/
def percentileWindow (impl : Nat) (histogram : Histogram F64)
    (from_percentile to_percentile : F64) : Int × Int :=
  windowScan histogram.Counts
    (F64.toUint impl ((histogram.DataCount : F64) * from_percentile))
    (F64.toUint impl ((histogram.DataCount : F64) * to_percentile))
    (List.range histogram.Nbins.toNat) 0 (-1) (-1)

/-! ## Options -/

/-- The struct `Options`. -/
structure Options where
  OutputFormat : String
  Stddev : Bool
  Percentile : Bool
  Histeq : Bool
  DumpHistogram : Bool
  DstAvg : F64
  DstStddev : F64
  FromPercentile : F64
  ToPercentile : F64
  NdvLong : Int
  OutNdv : Nat
  SrcFn : String
  DstFn : String
  Ndv : List (F64 × F64)
  ValidRange : List (F64 × F64)

/-- The value 1 or 0 of a mode flag. -/
def modeFlag (b : Bool) : Int := if b then 1 else 0

/-- The method `Options.handle`: the options as it leaves them, or the fatal
error it ends in. -/
def Options.handle (self : Options) : Except Fault Options :=
  let ModeStddev := modeFlag self.Stddev
  let self := if self.Stddev then self
    else { self with DstAvg := F64.fin (-1), DstStddev := F64.fin (-1) }
  let ModePercentile := modeFlag self.Percentile
  let self := if self.Percentile then self
    else { self with FromPercentile := F64.fin (-1), ToPercentile := F64.fin (-1) }
  let ModeHisteq := modeFlag self.Histeq
  let ModeDumpHistogram := modeFlag self.DumpHistogram
  if ModeDumpHistogram + ModeHisteq + ModePercentile + ModeStddev > 1
      ∨ ModeDumpHistogram + ModeHisteq + ModePercentile + ModeStddev = 0 then
    .error .oneMode
  else if self.SrcFn.length = 0 then .error .missingSrcfn
  else if (decide (self.DstFn.length = 0)) != self.DumpHistogram then .error .missingDstfn
  else if self.Stddev
      && (F64.lt self.DstAvg (F64.fin 0) || F64.lt self.DstStddev (F64.fin 0)) then
    .error .wrongArgs
  else if self.Percentile
      && !(F64.le (F64.fin 0) self.FromPercentile
        && F64.lt self.FromPercentile self.ToPercentile
        && F64.le self.ToPercentile (F64.fin 1)) then
    .error .wrongArgs
  else if self.OutputFormat.length = 0 then .ok { self with OutputFormat := "GTiff" }
  else .ok self

/-- The number of stretch policies an option set selects. -/
def policyCount (opt : Options) : Int :=
  modeFlag opt.Stddev + modeFlag opt.Percentile + modeFlag opt.Histeq

/-- The histogram-equalization branch of `Run`'s plan step: one table per
band, built with `opt.DstStddev` as the variance. -/
def histeqPlan (exp : F64 → F64) (opt : Options) (histograms : List (Histogram F64))
    (output_range : Int) : Except Fault (List (List Nat)) :=
  histograms.mapM (fun hg => invert_histogram_to_gaussian exp hg opt.DstStddev output_range)

/-! ## Unfolding the arithmetic of `F64` -/

theorem F64.add_def (a b : F64) : a + b = F64.add a b := rfl
theorem F64.sub_def (a b : F64) : a - b = F64.sub a b := rfl
theorem F64.mul_def (a b : F64) : a * b = F64.mul a b := rfl
theorem F64.div_def (a b : F64) : a / b = F64.div a b := rfl
theorem F64.intCast_def (n : Int) : ((n : Int) : F64) = F64.fin n := rfl
theorem F64.natCast_def (n : Nat) : ((n : Nat) : F64) = F64.fin n := rfl

/-! ## Lemmas on rounding -/

/-- The clamping tail of `ToBin`, whatever the rounded quotient is: a result is
an index between 0 and Nbins - 1. -/
theorem ToBin_clamp (n : Int) (hn : 1 ≤ n) (x : F64) (i : Int)
    (h : (if x.isNaN then (Except.error Fault.nanInToBin : Except Fault Int)
      else if F64.lt x (F64.fin 0) then .ok 0
      else if F64.gt x ((n : F64) - (F64.fin 1)) then .ok (n - 1)
      else .ok x.toInt) = .ok i) : 0 ≤ i ∧ i ≤ n - 1 := by
  have hsub : ((n : F64) - (F64.fin 1)) = F64.fin ((n : ℚ) - 1) := by
    show F64.sub (F64.fin (n : ℚ)) (F64.fin 1) = _
    simp [F64.sub, F64.neg, F64.add, sub_eq_add_neg]
  rw [hsub] at h
  cases x with
  | nan => simp [F64.isNaN] at h
  | ninf =>
    simp [F64.isNaN, F64.lt] at h
    subst h; omega
  | pinf =>
    simp [F64.isNaN, F64.lt, F64.gt] at h
    subst h; omega
  | fin r =>
    simp only [F64.isNaN, F64.lt, F64.gt, F64.toInt, Bool.false_eq_true, if_false,
      decide_eq_true_eq] at h
    split at h
    · cases h; omega
    · split at h
      · cases h; omega
      · rename_i h0 h1
        cases h
        push_neg at h0 h1
        have hr : F64.truncQ r = ⌊r⌋ := by simp [F64.truncQ, h0]
        rw [hr]
        constructor
        · exact Int.floor_nonneg.mpr h0
        · have : ⌊r⌋ ≤ ⌊((n - 1 : Int) : ℚ)⌋ := Int.floor_mono (by push_cast; exact h1)
          rwa [Int.floor_intCast] at this

theorem ByteImage.bytes_cons (enc : ByteImage) (x : F64) :
    ∃ b rest, enc.bytes x = b :: rest := by
  have h := enc.length_eq x
  cases hb : enc.bytes x with
  | nil => rw [hb] at h; simp at h
  | cons b rest => exact ⟨b, rest, rfl⟩

/-- C3, the code at a failing input. One slab [0, 10], Invert unset, one band whose pixel
is 5: the slab matches (5 lies in [0, 10]), yet GetNdvMaskC ends in the fatal error of
contains_templated, which is handed the band's data type instead of the pixel value. -/
theorem GetNdvMaskC_slab_is_fatal (enc : ByteImage) :
    inInterval (F64.fin 0, F64.fin 10) (F64.fin 5) = true ∧
    NdvDef.GetNdvMaskC enc ⟨[⟨[(F64.fin 0, F64.fin 10)]⟩], false⟩ [[F64.fin 5]] 1
      = .error .intervalType := by
  constructor
  · norm_num [inInterval, F64.ge, F64.le]
  · obtain ⟨b, rest, hb⟩ := enc.bytes_cons (F64.fin 5)
    show NdvDef.GetNdvMaskB enc ⟨[⟨[(F64.fin 0, F64.fin 10)]⟩], false⟩ [F64.fin 5]
      [GDT.Float64] 1 = .error .intervalType
    have h1 : maskSetup enc [F64.fin 5] [GDT.Float64] = .ok ([enc.bytes (F64.fin 5)], [0]) :=
      rfl
    simp only [NdvDef.GetNdvMaskB, h1, bind, Except.bind, hb]
    rfl

/-- C4, the code at a failing input. No slabs, Invert unset, one band whose pixel is NaN:
GetNdvMaskC writes the mask 0, since gdal_scalar_pointer_isnan only type-asserts a byte
against the band's data type. -/
theorem GetNdvMaskC_nan_unmarked (enc : ByteImage) :
    NdvDef.GetNdvMaskC enc ⟨[], false⟩ [[F64.nan]] 1 = .ok [0] := by
  obtain ⟨b, rest, hb⟩ := enc.bytes_cons F64.nan
  show NdvDef.GetNdvMaskB enc ⟨[], false⟩ [F64.nan] [GDT.Float64] 1 = .ok [0]
  have h1 : maskSetup enc [F64.nan] [GDT.Float64] = .ok ([enc.bytes F64.nan], [0]) := rfl
  simp only [NdvDef.GetNdvMaskB, h1, bind, Except.bind, hb]
  rfl

theorem pixelLoop_invert (slabs : List NdvSlab) (dt_list : List DataType)
    (dt_sizes : List Nat) (nbands : Nat) (n : Nat) (in_p : List (List Nat)) :
    pixelLoop slabs true dt_list dt_sizes nbands n in_p
      = (pixelLoop slabs false dt_list dt_sizes nbands n in_p).map (List.map invertMask) := by
  induction n generalizing in_p with
  | zero => rfl
  | succ n ih =>
    simp only [pixelLoop, bind, Except.bind, pure, Except.pure]
    cases nanMask in_p dt_list nbands with
    | error e => rfl
    | ok m =>
      simp only
      cases slabsMask slabs dt_list nbands m with
      | error e => rfl
      | ok m1 =>
        simp only
        cases advance in_p dt_sizes nbands with
        | error e => rfl
        | ok in_p1 =>
          simp only [ih in_p1]
          cases pixelLoop slabs false dt_list dt_sizes nbands n in_p1 with
          | error e => rfl
          | ok rest => simp [Except.map]

/-- C5. For every list of slabs and every block, GetNdvMaskB and GetNdvMaskC with
Invert = true end exactly as with Invert = false (same fault, or a mask in both), and
the mask with Invert = true is the other one with invertMask applied at every position:
zero where the other is non-zero, non-zero where the other is zero. -/
theorem invert_complements_mask (enc : ByteImage) (slabs : List NdvSlab) :
    (∀ (bands : List F64) (dt_list : List DataType) (num_pixels : Nat),
      NdvDef.GetNdvMaskB enc ⟨slabs, true⟩ bands dt_list num_pixels
        = (NdvDef.GetNdvMaskB enc ⟨slabs, false⟩ bands dt_list num_pixels).map
            (List.map invertMask)) ∧
    (∀ (bands : List (List F64)) (num_pixels : Nat),
      NdvDef.GetNdvMaskC enc ⟨slabs, true⟩ bands num_pixels
        = (NdvDef.GetNdvMaskC enc ⟨slabs, false⟩ bands num_pixels).map
            (List.map invertMask)) ∧
    (∀ m : Nat, (invertMask m = 0 ↔ m ≠ 0) ∧ (invertMask m ≠ 0 ↔ m = 0)) := by
  have hB : ∀ (bands : List F64) (dt_list : List DataType) (num_pixels : Nat),
      NdvDef.GetNdvMaskB enc ⟨slabs, true⟩ bands dt_list num_pixels
        = (NdvDef.GetNdvMaskB enc ⟨slabs, false⟩ bands dt_list num_pixels).map
            (List.map invertMask) := by
    intro bands dt_list num_pixels
    simp only [NdvDef.GetNdvMaskB, bind, Except.bind]
    cases maskSetup enc bands dt_list with
    | error e => rfl
    | ok s => simp only [pixelLoop_invert]
  refine ⟨hB, ?_, ?_⟩
  · intro bands num_pixels
    simp only [NdvDef.GetNdvMaskC, bind, Except.bind]
    cases List.mapM (fun v => match v with
        | x :: _ => (Except.ok x : Except Fault F64)
        | [] => .error .indexOutOfRange) bands with
    | error e => rfl
    | ok band_p => simp only [hB]
  · intro m
    unfold invertMask
    by_cases h : m = 0 <;> simp [h]

/-! ## The OutNdv sentinel -/

theorem avoidOutNdv_ne (OutNdv : Nat) (output_range : Int) (v : Nat) (h : OutNdv < 256) :
    avoidOutNdv OutNdv output_range v ≠ OutNdv := by
  unfold avoidOutNdv
  split
  · rename_i hv
    subst hv
    split <;> omega
  · assumption

/-- C6. In the linear apply step, for every pixel value, scale, offset and OutNdv byte, the
output byte equals OutNdv exactly when the pixel's no-data mask is non-zero. -/
theorem linearPixel_eq_OutNdv_iff (impl : Nat) (OutNdv : Nat) (output_range : Int)
    (scale offset : F64) (ndv : Nat) (value : F64) (h : OutNdv < 256) :
    linearPixel impl OutNdv output_range scale offset ndv value = OutNdv ↔ ndv ≠ 0 := by
  unfold linearPixel
  by_cases hn : ndv ≠ 0
  · simp [hn]
  · simp only [hn, if_false, iff_false]
    exact avoidOutNdv_ne OutNdv output_range _ h

/-- C6 witness: OutNdv = 0, identity stretch, a data pixel of value 0 and a masked pixel. -/
theorem linearPixel_eq_OutNdv_iff_witness :
    (0 : Nat) < 256 ∧
    (linearPixel 0 0 256 (F64.fin 1) (F64.fin 0) 0 (F64.fin 0) = 0 ↔ (0 : Nat) ≠ 0) ∧
    (linearPixel 0 0 256 (F64.fin 1) (F64.fin 0) 1 (F64.fin 0) = 0 ↔ (1 : Nat) ≠ 0) :=
  ⟨by decide,
    linearPixel_eq_OutNdv_iff 0 0 256 (F64.fin 1) (F64.fin 0) 0 (F64.fin 0) (by decide),
    linearPixel_eq_OutNdv_iff 0 0 256 (F64.fin 1) (F64.fin 0) 1 (F64.fin 0) (by decide)⟩

/-- C9, the code at a failing input. Four bins of values 1, 2, 3, 4 with one pixel each,
percentiles 1/4 and 3/4, output range 256: the window is from_val = 2, to_val = 3 and the
function returns scale = 255/3 - 2 = 83 and offset = 2, so the linear map sends to_val
to (3 - 2) * 83 = 83, not to output_range - 1 = 255. -/
theorem get_scale_from_percentile_misses_range (impl : Nat) :
    get_scale_from_percentile impl
      { Nbins := 4, Offset := F64.fin 1, Scale := F64.fin 1, Max := F64.fin 4, Min := F64.fin 1,
        Mean := F64.fin (5 / 2), Stddev := F64.fin 1, DataCount := 4, NdvCount := 0,
        Counts := [1, 1, 1, 1] } 256 (F64.fin (1 / 4)) (F64.fin (3 / 4))
      = .ok (F64.fin 83, F64.fin 2) ∧
    linearMap (F64.fin 83) (F64.fin 2) (F64.fin 3) = F64.fin 83 ∧
    F64.fin 83 ≠ F64.fin (256 - 1) := by
  refine ⟨?_, ?_, ?_⟩
  · norm_num [get_scale_from_percentile, F64.toUint, F64.natCast_def, F64.intCast_def,
      F64.mul_def, F64.sub_def, F64.div_def, F64.add_def, F64.mul, F64.truncQ, windowScan,
      List.range_succ, Binning.FromBin, F64.add, F64.sub, F64.div, F64.neg]
  · norm_num [linearMap, F64.sub_def, F64.mul_def, F64.sub, F64.add, F64.neg, F64.mul]
  · norm_num

/-! ## Histogram equalization -/

/-- C10, the code at every input. The table invert_histogram_to_gaussian returns is
empty whatever the histogram: it has no entry for any source bin, since the loops run
over src_h, which is never filled (the copy goes from src_h into the histogram). -/
theorem invert_histogram_to_gaussian_empty (exp : F64 → F64) (histogram_in : Histogram F64)
    (variance : F64) (output_range : Int) :
    invert_histogram_to_gaussian exp histogram_in variance output_range = .ok [] ∧
    (goCopy histogram_in.Counts []).1 = histogram_in.Counts ∧
    ∀ i : Nat, ([] : List Nat)[i]? = none := by
  refine ⟨rfl, ?_, fun i => rfl⟩
  simp [goCopy]

/-! ## Deviation stretch -/

theorem foldl_range_add {M : Type} [AddCommMonoid M] (f : Nat → M) (a : M) (n : Nat) :
    (List.range n).foldl (fun acc i => acc + f i) a = a + ∑ i ∈ Finset.range n, f i := by
  induction n with
  | zero => simp
  | succ n ih =>
    rw [List.range_succ, List.foldl_append, ih, Finset.sum_range_succ]
    simp [add_assoc]

theorem bandStats_eq {K : Type} [LinearOrderedField K] (sqrt : K → K) (val : Int → K)
    (Counts : List Nat) (Nbins : Int) :
    bandStats sqrt val Counts Nbins 0 =
      (∑ i ∈ Finset.range Nbins.toNat, Counts.getD i 0,
        (∑ i ∈ Finset.range Nbins.toNat, val (i : Int) * ((Counts.getD i 0 : Nat) : K))
          / ((∑ i ∈ Finset.range Nbins.toNat, Counts.getD i 0 : Nat) : K),
        sqrt ((∑ i ∈ Finset.range Nbins.toNat,
            (val (i : Int) - (∑ i ∈ Finset.range Nbins.toNat,
                val (i : Int) * ((Counts.getD i 0 : Nat) : K))
              / ((∑ i ∈ Finset.range Nbins.toNat, Counts.getD i 0 : Nat) : K))
            * (val (i : Int) - (∑ i ∈ Finset.range Nbins.toNat,
                val (i : Int) * ((Counts.getD i 0 : Nat) : K))
              / ((∑ i ∈ Finset.range Nbins.toNat, Counts.getD i 0 : Nat) : K))
            * ((Counts.getD i 0 : Nat) : K))
          / ((∑ i ∈ Finset.range Nbins.toNat, Counts.getD i 0 : Nat) : K))) := by
  simp only [bandStats, foldl_range_add, zero_add]

/-- C8. Over an ordered field (exact arithmetic) with a square root function that is
correct on non-negative values: for a histogram with DataCount > 0 and Stddev not 0, as
ComputeHistogram derives them from the bins, and a target stddev > 0, the deviation
policy's scale and offset make the map x -> (x - offset) * scale, applied to the bin
values FromBin(i) weighted by Counts[i], have count-weighted mean target_mean and
count-weighted standard deviation target_stddev. -/
theorem deviation_reproduces_target {K : Type} [LinearOrderedField K] (sqrt : K → K)
    (hsqrt : ∀ x : K, 0 ≤ x → 0 ≤ sqrt x ∧ sqrt x * sqrt x = x)
    (hg0 : Histogram K) (h0 : hg0.DataCount = 0) (target_mean target_stddev : K)
    (hD : 0 < (summarise sqrt hg0).DataCount) (hS : (summarise sqrt hg0).Stddev ≠ 0)
    (hts : 0 < target_stddev) :
    bandStats sqrt
      (fun i => linearMap (deviationParams (summarise sqrt hg0) target_mean target_stddev).1
        (deviationParams (summarise sqrt hg0) target_mean target_stddev).2
        ((summarise sqrt hg0).toBinning.FromBin i))
      hg0.Counts hg0.Nbins 0
      = ((summarise sqrt hg0).DataCount, target_mean, target_stddev) := by
  obtain ⟨⟨Nbins, Offset, Scale⟩, Max, Min, Mean, Stddev, DataCount, NdvCount, Counts⟩ := hg0
  simp only at h0
  subst h0
  simp only [summarise, deviationParams, bandStats_eq] at hD hS ⊢
  rw [if_neg hS]
  -- abbreviations
  set n := Nbins.toNat with hn
  set c : Nat → K := fun i => ((Counts.getD i 0 : Nat) : K) with hc
  set x : Nat → K := fun i => (Binning.mk Nbins Offset Scale).FromBin (i : Int) with hx
  set N : K := ((∑ i ∈ Finset.range n, Counts.getD i 0 : Nat) : K) with hN
  have hNpos : 0 < N := by rw [hN]; exact_mod_cast hD
  have hNsum : N = ∑ i ∈ Finset.range n, c i := by rw [hN, Nat.cast_sum]
  set S1 : K := ∑ i ∈ Finset.range n, x i * c i with hS1
  set μ : K := S1 / N with hμ
  set V : K := ∑ i ∈ Finset.range n, (x i - μ) * (x i - μ) * c i with hV
  have hV0 : 0 ≤ V / N := by
    apply div_nonneg _ hNpos.le
    apply Finset.sum_nonneg
    intro i _
    exact mul_nonneg (mul_self_nonneg _) (Nat.cast_nonneg _)
  obtain ⟨hσ0, hσ2⟩ := hsqrt (V / N) hV0
  set σ : K := sqrt (V / N) with hσ
  have hscale : target_stddev / σ ≠ 0 := div_ne_zero hts.ne' hS
  set scale : K := target_stddev / σ with hsc
  have hy : ∀ i, linearMap scale (μ - target_mean / scale) (x i) = scale * (x i - μ) + target_mean := by
    intro i
    unfold linearMap
    field_simp
    ring
  simp only [hy]
  have hdev : ∑ i ∈ Finset.range n, (x i - μ) * c i = 0 := by
    simp only [sub_mul, Finset.sum_sub_distrib, ← Finset.mul_sum, ← hNsum, ← hS1]
    rw [hμ]; field_simp
  have hsum1 : ∑ i ∈ Finset.range n, (scale * (x i - μ) + target_mean) * c i = target_mean * N := by
    have : ∀ i, (scale * (x i - μ) + target_mean) * c i
        = scale * ((x i - μ) * c i) + target_mean * c i := by intro i; ring
    simp only [this, Finset.sum_add_distrib, ← Finset.mul_sum, hdev, ← hNsum]
    ring
  have hmean : (∑ i ∈ Finset.range n, (scale * (x i - μ) + target_mean) * c i) / N = target_mean := by
    rw [hsum1]; field_simp
  rw [hmean]
  have hvar : (∑ i ∈ Finset.range n, (scale * (x i - μ) + target_mean - target_mean)
      * (scale * (x i - μ) + target_mean - target_mean) * c i) / N
      = target_stddev * target_stddev := by
    have : ∀ i, (scale * (x i - μ) + target_mean - target_mean)
        * (scale * (x i - μ) + target_mean - target_mean) * c i
        = scale * scale * ((x i - μ) * (x i - μ) * c i) := by intro i; ring
    simp only [this, ← Finset.mul_sum, ← hV]
    rw [mul_div_assoc, ← hσ2, hsc]
    field_simp
  rw [hvar]
  obtain ⟨hr0, hr2⟩ := hsqrt (target_stddev * target_stddev) (mul_self_nonneg _)
  have : sqrt (target_stddev * target_stddev) = target_stddev :=
    (mul_self_inj hr0 hts.le).mp hr2
  rw [this]

theorem deviation_witness_DataCount :
    (summarise Real.sqrt
      { Nbins := 2, Offset := 0, Scale := 2, Max := 2, Min := 0, Mean := 0, Stddev := 0,
        DataCount := 0, NdvCount := 0, Counts := [1, 1] }).DataCount = 2 := by
  simp [summarise, bandStats, List.range_succ]

theorem deviation_witness_Stddev :
    (summarise Real.sqrt
      { Nbins := 2, Offset := 0, Scale := 2, Max := 2, Min := 0, Mean := 0, Stddev := 0,
        DataCount := 0, NdvCount := 0, Counts := [1, 1] }).Stddev = 1 := by
  simp [summarise, bandStats, List.range_succ, Binning.FromBin]
  norm_num

/-- C8 witness: over the reals with Real.sqrt, two bins of values 0 and 2 holding one
pixel each (mean 1, stddev 1), target mean 128 and target stddev 50. -/
theorem deviation_reproduces_target_witness :
    bandStats Real.sqrt
      (fun i => linearMap
        (deviationParams (summarise Real.sqrt
          { Nbins := 2, Offset := 0, Scale := 2, Max := 2, Min := 0, Mean := 0, Stddev := 0,
            DataCount := 0, NdvCount := 0, Counts := [1, 1] }) 128 50).1
        (deviationParams (summarise Real.sqrt
          { Nbins := 2, Offset := 0, Scale := 2, Max := 2, Min := 0, Mean := 0, Stddev := 0,
            DataCount := 0, NdvCount := 0, Counts := [1, 1] }) 128 50).2
        ((summarise Real.sqrt
          { Nbins := 2, Offset := 0, Scale := 2, Max := 2, Min := 0, Mean := 0, Stddev := 0,
            DataCount := 0, NdvCount := 0, Counts := [1, 1] }).toBinning.FromBin i))
      [1, 1] 2 0
      = (2, 128, 50) :=
  deviation_witness_DataCount ▸
  deviation_reproduces_target Real.sqrt
    (fun x hx => ⟨Real.sqrt_nonneg x, Real.mul_self_sqrt hx⟩)
    { Nbins := 2, Offset := 0, Scale := 2, Max := 2, Min := 0, Mean := 0, Stddev := 0,
      DataCount := 0, NdvCount := 0, Counts := [1, 1] } rfl 128 50
    (by rw [deviation_witness_DataCount]; decide)
    (by rw [deviation_witness_Stddev]; exact one_ne_zero)
    (by norm_num)

/-! ## Table plan: the lookup -/

/-- C11, the code at every input. The table invert_histogram_to_gaussian builds is empty
and stays empty through the post-processing step, so for a data pixel the lookup
table[ToBin(v)] never yields a byte: the apply step ends in a fault, an index out of range
whenever ToBin returns (here for Nbins = 1 and v = 0, where ToBin(v) = 0). Same defect as
C10. -/
theorem table_lookup_out_of_range (exp : F64 → F64) (histogram_in : Histogram F64)
    (variance : F64) (output_range : Int) (ndv_def : NdvDef) (OutNdv : Nat) :
    invert_histogram_to_gaussian exp histogram_in variance output_range = .ok [] ∧
    tablePostprocess true ndv_def OutNdv output_range [[]] = [[]] ∧
    (∀ (binning : Binning F64) (value : F64) (b : Nat),
      tablePixel OutNdv [] binning 0 value ≠ .ok b) ∧
    Binning.ToBin ⟨1, F64.fin 0, F64.fin 1⟩ (F64.fin 0) = .ok 0 ∧
    tablePixel OutNdv [] ⟨1, F64.fin 0, F64.fin 1⟩ 0 (F64.fin 0) = .error .indexOutOfRange := by
  have hbin : Binning.ToBin ⟨1, F64.fin 0, F64.fin 1⟩ (F64.fin 0) = .ok 0 := by
    norm_num [Binning.ToBin, F64.isInf, F64.sub_def, F64.div_def, F64.intCast_def, F64.sub,
      F64.add, F64.neg, F64.div, F64.round, F64.isNaN, F64.lt, F64.gt, F64.toInt,
      F64.roundQ, F64.truncQ]
  refine ⟨rfl, ?_, ?_, hbin, ?_⟩
  · unfold tablePostprocess
    split <;> simp
  · intro binning value b
    unfold tablePixel
    simp only [ne_eq, not_true_eq_false, if_false]
    cases binning.ToBin value with
    | error e => simp
    | ok bin =>
      simp only
      split <;> simp
  · unfold tablePixel
    rw [hbin]
    simp

/-! ## Options -/

theorem handle_modes (opt opt1 : Options) (h : opt.handle = .ok opt1) :
    modeFlag opt.DumpHistogram + modeFlag opt.Histeq + modeFlag opt.Percentile
      + modeFlag opt.Stddev = 1 := by
  obtain ⟨oform, sd, pc, he, dh, avg, dev, fp, tp, nl, ondv, sfn, dfn, nd, vr⟩ := opt
  cases sd <;> cases pc <;> cases he <;> cases dh <;>
    simp [Options.handle, modeFlag] at h ⊢

theorem handle_oneMode (opt : Options)
    (h : modeFlag opt.DumpHistogram + modeFlag opt.Histeq + modeFlag opt.Percentile
      + modeFlag opt.Stddev ≠ 1) : opt.handle = .error .oneMode := by
  obtain ⟨oform, sd, pc, he, dh, avg, dev, fp, tp, nl, ondv, sfn, dfn, nd, vr⟩ := opt
  cases sd <;> cases pc <;> cases he <;> cases dh <;>
    simp [Options.handle, modeFlag] at h ⊢

theorem handle_histeq_DstStddev (opt opt1 : Options) (hq : opt.Histeq = true)
    (h : opt.handle = .ok opt1) : opt1.DstStddev = F64.fin (-1) := by
  obtain ⟨oform, sd, pc, he, dh, avg, dev, fp, tp, nl, ondv, sfn, dfn, nd, vr⟩ := opt
  simp only at hq
  subst hq
  cases sd <;> cases pc <;> cases dh <;>
    simp [Options.handle, modeFlag] at h
  split at h
  · cases h
  · split at h
    · cases h
    · split at h <;> cases h <;> rfl

/-- C12, the code at a failing input. Histogram equalization selected with DstStddev = 30:
handle accepts the options and leaves DstStddev = -1 (it resets DstAvg and DstStddev whenever
Stddev is unset), so the variance Run hands to invert_histogram_to_gaussian and
gen_gaussian is -1, not the 30 the caller supplied. -/
theorem histeq_variance_is_reset (exp : F64 → F64) (histograms : List (Histogram F64)) :
    Options.handle
      { OutputFormat := "", Stddev := false, Percentile := false, Histeq := true,
        DumpHistogram := false, DstAvg := F64.fin 0, DstStddev := F64.fin 30,
        FromPercentile := F64.fin 0, ToPercentile := F64.fin 1, NdvLong := 0, OutNdv := 0,
        SrcFn := "in.tif", DstFn := "out.tif", Ndv := [], ValidRange := [] }
      = .ok
      { OutputFormat := "GTiff", Stddev := false, Percentile := false, Histeq := true,
        DumpHistogram := false, DstAvg := F64.fin (-1), DstStddev := F64.fin (-1),
        FromPercentile := F64.fin (-1), ToPercentile := F64.fin (-1), NdvLong := 0, OutNdv := 0,
        SrcFn := "in.tif", DstFn := "out.tif", Ndv := [], ValidRange := [] } ∧
    histeqPlan exp
      { OutputFormat := "GTiff", Stddev := false, Percentile := false, Histeq := true,
        DumpHistogram := false, DstAvg := F64.fin (-1), DstStddev := F64.fin (-1),
        FromPercentile := F64.fin (-1), ToPercentile := F64.fin (-1), NdvLong := 0, OutNdv := 0,
        SrcFn := "in.tif", DstFn := "out.tif", Ndv := [], ValidRange := [] } histograms 256
      = histograms.mapM
          (fun hg => invert_histogram hg (gen_gaussian exp (F64.fin (-1)) 256) (toUint8 256)) ∧
    F64.fin (-1) ≠ F64.fin 30 := by
  refine ⟨rfl, rfl, ?_⟩
  intro h
  injection h with h
  norm_num at h

/-- C13 counterexample. Dump mode alone, with a source file and no destination file: handle
accepts the options although none of the three stretch policies is selected. -/
theorem handle_accepts_dump_without_policy :
    Options.handle
      { OutputFormat := "", Stddev := false, Percentile := false, Histeq := false,
        DumpHistogram := true, DstAvg := F64.fin 0, DstStddev := F64.fin 0,
        FromPercentile := F64.fin 0, ToPercentile := F64.fin 1, NdvLong := 0, OutNdv := 0,
        SrcFn := "in.tif", DstFn := "", Ndv := [], ValidRange := [] }
      = .ok
      { OutputFormat := "GTiff", Stddev := false, Percentile := false, Histeq := false,
        DumpHistogram := true, DstAvg := F64.fin (-1), DstStddev := F64.fin (-1),
        FromPercentile := F64.fin (-1), ToPercentile := F64.fin (-1), NdvLong := 0, OutNdv := 0,
        SrcFn := "in.tif", DstFn := "", Ndv := [], ValidRange := [] } ∧
    policyCount
      { OutputFormat := "", Stddev := false, Percentile := false, Histeq := false,
        DumpHistogram := true, DstAvg := F64.fin 0, DstStddev := F64.fin 0,
        FromPercentile := F64.fin 0, ToPercentile := F64.fin 1, NdvLong := 0, OutNdv := 0,
        SrcFn := "in.tif", DstFn := "", Ndv := [], ValidRange := [] } = 0 :=
  ⟨rfl, rfl⟩

/-- C13, amended. Options.handle fails with the fatal error "one mode to choose" for every
option set in which the number of selected modes among Stddev, Percentile, Histeq and
DumpHistogram is not exactly one; every option set it accepts has exactly one of these
four selected, hence exactly one stretch policy when DumpHistogram is unset and none when
it is set. -/
theorem handle_exactly_one_mode (opt : Options) :
    (policyCount opt + modeFlag opt.DumpHistogram ≠ 1 → opt.handle = .error .oneMode) ∧
    (∀ opt1, opt.handle = .ok opt1 →
      policyCount opt + modeFlag opt.DumpHistogram = 1 ∧
      (opt.DumpHistogram = false → policyCount opt = 1) ∧
      (opt.DumpHistogram = true → policyCount opt = 0)) := by
  constructor
  · intro h
    apply handle_oneMode
    unfold policyCount at h
    omega
  · intro opt1 h
    have hm := handle_modes opt opt1 h
    unfold policyCount
    refine ⟨by omega, ?_, ?_⟩
    · intro hd
      rw [hd] at hm
      have h0 : modeFlag false = 0 := rfl
      omega
    · intro hd
      rw [hd] at hm
      have h1 : modeFlag true = 1 := rfl
      have b2 : 0 ≤ modeFlag opt.Histeq := by unfold modeFlag; split <;> decide
      have b3 : 0 ≤ modeFlag opt.Percentile := by unfold modeFlag; split <;> decide
      have b4 : 0 ≤ modeFlag opt.Stddev := by unfold modeFlag; split <;> decide
      omega

/-- C13 witness: deviation and percentile both selected is refused; deviation alone is
accepted and is exactly one policy. -/
theorem handle_exactly_one_mode_witness :
    (policyCount
        { OutputFormat := "", Stddev := true, Percentile := true, Histeq := false,
          DumpHistogram := false, DstAvg := F64.fin 0, DstStddev := F64.fin 0,
          FromPercentile := F64.fin 0, ToPercentile := F64.fin 1, NdvLong := 0, OutNdv := 0,
          SrcFn := "in.tif", DstFn := "out.tif", Ndv := [], ValidRange := [] }
        + modeFlag false ≠ 1 ∧
      Options.handle
        { OutputFormat := "", Stddev := true, Percentile := true, Histeq := false,
          DumpHistogram := false, DstAvg := F64.fin 0, DstStddev := F64.fin 0,
          FromPercentile := F64.fin 0, ToPercentile := F64.fin 1, NdvLong := 0, OutNdv := 0,
          SrcFn := "in.tif", DstFn := "out.tif", Ndv := [], ValidRange := [] }
        = .error .oneMode) ∧
    (policyCount
        { OutputFormat := "GTiff", Stddev := false, Percentile := false, Histeq := true,
          DumpHistogram := false, DstAvg := F64.fin 0, DstStddev := F64.fin 0,
          FromPercentile := F64.fin 0, ToPercentile := F64.fin 1, NdvLong := 0, OutNdv := 0,
          SrcFn := "in.tif", DstFn := "out.tif", Ndv := [], ValidRange := [] }
        + modeFlag false = 1) :=
  ⟨⟨by decide,
    (handle_exactly_one_mode
      { OutputFormat := "", Stddev := true, Percentile := true, Histeq := false,
        DumpHistogram := false, DstAvg := F64.fin 0, DstStddev := F64.fin 0,
        FromPercentile := F64.fin 0, ToPercentile := F64.fin 1, NdvLong := 0, OutNdv := 0,
        SrcFn := "in.tif", DstFn := "out.tif", Ndv := [], ValidRange := [] }).1 (by decide)⟩,
    ((handle_exactly_one_mode
      { OutputFormat := "GTiff", Stddev := false, Percentile := false, Histeq := true,
        DumpHistogram := false, DstAvg := F64.fin 0, DstStddev := F64.fin 0,
        FromPercentile := F64.fin 0, ToPercentile := F64.fin 1, NdvLong := 0, OutNdv := 0,
        SrcFn := "in.tif", DstFn := "out.tif", Ndv := [], ValidRange := [] }).2
      { OutputFormat := "GTiff", Stddev := false, Percentile := false, Histeq := true,
        DumpHistogram := false, DstAvg := F64.fin (-1), DstStddev := F64.fin (-1),
        FromPercentile := F64.fin (-1), ToPercentile := F64.fin (-1), NdvLong := 0, OutNdv := 0,
        SrcFn := "in.tif", DstFn := "out.tif", Ndv := [], ValidRange := [] } rfl).1⟩

/-! ## Binning selection -/

/-- C14, the code at a failing input. A Float32 band whose observed range is min = max = 5:
Run selects Nbins = 10000000, Offset = 5 and Scale = (5 - 5) / 9999999 = 0, so Scale > 0
fails, and ToBin(5) computes 0 / 0 = NaN and ends in the fatal error "nan in to_bin". -/
theorem selectBinning_zero_width :
    selectBinning GDT.Float32 (F64.fin 5, F64.fin 5)
      = { Nbins := 10000000, Offset := F64.fin 5, Scale := F64.fin 0 } ∧
    F64.gt (selectBinning GDT.Float32 (F64.fin 5, F64.fin 5)).Scale (F64.fin 0) = false ∧
    (selectBinning GDT.Float32 (F64.fin 5, F64.fin 5)).ToBin (F64.fin 5)
      = .error .nanInToBin := by
  have h : selectBinning GDT.Float32 (F64.fin 5, F64.fin 5)
      = { Nbins := 10000000, Offset := F64.fin 5, Scale := F64.fin 0 } := by
    norm_num [selectBinning, GDT.Float32, GDT.Byte, GDT.UInt16, GDT.Int16, F64.sub_def,
      F64.div_def, F64.intCast_def, F64.sub, F64.add, F64.neg, F64.div]
  refine ⟨h, ?_, ?_⟩
  · rw [h]; norm_num [F64.gt, F64.lt]
  · rw [h]
    norm_num [Binning.ToBin, F64.isInf, F64.sub_def, F64.div_def, F64.sub, F64.add, F64.neg,
      F64.div, F64.round, F64.isNaN]

/-! ## Linear plan: the byte before the bump -/

/-- C17. In the linear apply step, for every finite value, scale and offset, the byte the
code computes for a data pixel before the OutNdv bump (clamp, then truncate) equals
clamp(trunc((value - offset) * scale), 0, 255); linearPixel is that byte passed through
the bump. -/
theorem linearByte_eq_spec (impl : Nat) (scale offset value : ℚ) :
    ((linearByte impl 256 (F64.fin scale) (F64.fin offset) (F64.fin value) : Nat) : Int)
      = specLinearByte 256 scale offset value ∧
    ∀ (OutNdv : Nat) (s o v : F64),
      linearPixel impl OutNdv 256 s o 0 v = avoidOutNdv OutNdv 256 (linearByte impl 256 s o v) := by
  refine ⟨?_, fun OutNdv s o v => rfl⟩
  have hmap : linearMap (F64.fin scale) (F64.fin offset) (F64.fin value)
      = F64.fin ((value - offset) * scale) := by
    simp [linearMap, F64.sub_def, F64.mul_def, F64.sub, F64.add, F64.neg, F64.mul,
      sub_eq_add_neg]
  have hsub : (((256 : Int) : F64) - F64.fin 1) = F64.fin 255 := by
    norm_num [F64.sub_def, F64.intCast_def, F64.sub, F64.add, F64.neg]
  unfold linearByte specLinearByte specClamp
  rw [hmap, hsub]
  set q : ℚ := (value - offset) * scale with hq
  simp only [F64.lt, F64.gt, decide_eq_true_eq]
  by_cases h0 : q < 0
  · have ht : F64.truncQ q ≤ 0 := by
      unfold F64.truncQ
      rw [if_neg (not_le.mpr h0)]
      have : 0 ≤ ⌊-q⌋ := Int.floor_nonneg.mpr (by linarith)
      omega
    rw [if_pos h0]
    split
    · rfl
    · rw [if_neg (by omega)]; push_cast; omega
  · push_neg at h0
    have ht : F64.truncQ q = ⌊q⌋ := by simp [F64.truncQ, h0]
    have hf0 : 0 ≤ ⌊q⌋ := Int.floor_nonneg.mpr h0
    rw [if_neg (not_lt.mpr h0), ht, if_neg (not_lt.mpr hf0)]
    by_cases h1 : (255 : ℚ) < q
    · have hf1 : 255 ≤ ⌊q⌋ := Int.le_floor.mpr (by push_cast; linarith)
      rw [if_pos h1]
      have : toUint8 256 = 0 := by decide
      rw [this]
      split
      · rfl
      · push_cast; omega
    · push_neg at h1
      have hf1 : ⌊q⌋ ≤ 255 := by
        have : ⌊q⌋ ≤ ⌊((255 : Int) : ℚ)⌋ := Int.floor_mono (by push_cast; exact h1)
        rwa [Int.floor_intCast] at this
      rw [if_neg (not_lt.mpr h1), if_neg (by omega)]
      simp only [F64.toUint8, ht]
      rw [if_pos ⟨hf0, by omega⟩]
      exact Int.toNat_of_nonneg hf0

/-! ## Percentile window: the search -/

/-- C19, the code at a failing input. One bin holding all 10 pixels (DataCount = 10, the
sum of Counts), percentiles 0 and 1/2: end_count is 5, the first bin's count 10 exceeds it,
the loop breaks with to_idx = -1 and the function ends in the fatal error
"impossible: could not find window". -/
theorem get_scale_from_percentile_no_window (impl : Nat) :
    get_scale_from_percentile impl
      { Nbins := 1, Offset := F64.fin 0, Scale := F64.fin 1, Max := F64.fin 0,
        Min := F64.fin 0, Mean := F64.fin 0, Stddev := F64.fin 0, DataCount := 10,
        NdvCount := 0, Counts := [10] } 256 (F64.fin 0) (F64.fin (1 / 2))
      = .error .noWindow ∧
    windowScan [10] 0 5 (List.range 1) 0 (-1) (-1) = (0, -1) := by
  constructor
  · norm_num [get_scale_from_percentile, F64.toUint, F64.natCast_def, F64.mul_def, F64.mul,
      F64.truncQ, windowScan, List.range_succ]
  · norm_num [windowScan, List.range_succ]

/-! ## Histogram accumulation -/

theorem summarise_fields (sqrt : F64 → F64) (hg : Histogram F64) :
    (summarise sqrt hg).Min = hg.Min ∧ (summarise sqrt hg).Max = hg.Max ∧
    (summarise sqrt hg).Counts = hg.Counts ∧ (summarise sqrt hg).NdvCount = hg.NdvCount ∧
    (summarise sqrt hg).toBinning = hg.toBinning :=
  ⟨rfl, rfl, rfl, rfl, rfl⟩

/-- C20, the code at a failing input. Two bins at 0 and 1, two data pixels 0 and +Inf:
ComputeHistogram finishes with Min = 0 and Max = +Inf, since its pass compares every data
value with Min and Max; ComputeMinmax, which skips NaN and +Inf, gives (0, 0) on the same
pixels. -/
theorem ComputeHistogram_Max_takes_pinf (sqrt : F64 → F64) :
    (ComputeHistogramBand sqrt ⟨2, F64.fin 0, F64.fin 1⟩ [(0, F64.fin 0), (0, F64.pinf)]).map
      (fun hg => (hg.Min, hg.Max, hg.Counts)) = .ok (F64.fin 0, F64.pinf, [1, 1]) ∧
    ComputeMinmaxBand [(0, F64.fin 0), (0, F64.pinf)] = (F64.fin 0, F64.fin 0) := by
  constructor
  · have h0 : Binning.ToBin ⟨2, F64.fin 0, F64.fin 1⟩ (F64.fin 0) = .ok 0 := by
      norm_num [Binning.ToBin, F64.isInf, F64.sub_def, F64.div_def, F64.intCast_def, F64.sub,
        F64.add, F64.neg, F64.div, F64.round, F64.isNaN, F64.lt, F64.gt, F64.toInt,
        F64.roundQ, F64.truncQ]
    have h1 : Binning.ToBin ⟨2, F64.fin 0, F64.fin 1⟩ F64.pinf = .ok 1 := by
      norm_num [Binning.ToBin, F64.isInf]
    simp [ComputeHistogramBand, allocHistogram, accumulate, accumPixel, h0, h1, Except.map,
      summarise, bumpCount, trackMin, trackMax, F64.lt, F64.gt]
  · simp [ComputeMinmaxBand, minmaxPixel, F64.isNaN, F64.isInf, F64.lt, F64.gt]

theorem ToBin_ok_range (b : Binning F64) (hn : 1 ≤ b.Nbins) (v : F64) (i : Int)
    (h : b.ToBin v = .ok i) : 0 ≤ i ∧ i ≤ b.Nbins - 1 := by
  cases v with
  | nan => simp [Binning.ToBin, F64.isInf, F64.sub_def, F64.div_def, F64.sub, F64.add,
      F64.neg, F64.div, F64.round, F64.isNaN] at h
  | ninf =>
    simp [Binning.ToBin, F64.isInf] at h
    subst h; omega
  | pinf =>
    simp [Binning.ToBin, F64.isInf] at h
    subst h; omega
  | fin q =>
    simp only [Binning.ToBin, F64.isInf, Bool.false_eq_true, if_false] at h
    exact ToBin_clamp b.Nbins hn _ i h

theorem ToBin_ok_ne_nan (b : Binning F64) (v : F64) (i : Int) (h : b.ToBin v = .ok i) :
    v ≠ F64.nan := by
  rintro rfl
  simp [Binning.ToBin, F64.isInf, F64.sub_def, F64.div_def, F64.sub, F64.add,
      F64.neg, F64.div, F64.round, F64.isNaN] at h

theorem ToBin_returns (b : Binning F64) (o : ℚ) (ho : b.Offset = F64.fin o)
    (hs : F64.gt b.Scale (F64.fin 0) = true) (v : F64) (hv : v ≠ F64.nan) :
    ∃ i, b.ToBin v = .ok i := by
  cases v with
  | nan => exact absurd rfl hv
  | ninf => exact ⟨0, by simp [Binning.ToBin, F64.isInf]⟩
  | pinf => exact ⟨b.Nbins - 1, by simp [Binning.ToBin, F64.isInf]⟩
  | fin q =>
    have hx : ∃ r, F64.round ((F64.fin q - b.Offset) / b.Scale) = F64.fin r := by
      rw [ho]
      show ∃ r, F64.round (F64.div (F64.sub (F64.fin q) (F64.fin o)) b.Scale) = F64.fin r
      cases hsc : b.Scale with
      | nan => rw [hsc] at hs; simp [F64.gt, F64.lt] at hs
      | ninf => rw [hsc] at hs; simp [F64.gt, F64.lt] at hs
      | pinf => exact ⟨_, by simp [F64.sub, F64.neg, F64.add, F64.div, F64.round]; rfl⟩
      | fin s =>
        rw [hsc] at hs
        have hs0 : s ≠ 0 := by
          simp [F64.gt, F64.lt] at hs
          exact ne_of_gt hs
        exact ⟨_, by simp [F64.sub, F64.neg, F64.add, F64.div, F64.round, hs0]; rfl⟩
    obtain ⟨r, hr⟩ := hx
    simp only [Binning.ToBin, F64.isInf, Bool.false_eq_true, if_false, hr, F64.isNaN]
    split
    · exact ⟨_, rfl⟩
    · split
      · exact ⟨_, rfl⟩
      · exact ⟨_, rfl⟩

theorem sum_set_succ (l : List Nat) (i : Nat) (h : i < l.length) :
    (l.set i (l.getD i 0 + 1)).sum = l.sum + 1 := by
  induction l generalizing i with
  | nil => simp at h
  | cons a t ih =>
    cases i with
    | zero => simp; omega
    | succ j =>
      simp only [List.length_cons, Nat.succ_lt_succ_iff] at h
      simp only [List.set_cons_succ, List.sum_cons, List.getD_cons_succ, ih j h]
      omega

theorem sum_range_getD (l : List Nat) :
    ∑ i ∈ Finset.range l.length, l.getD i 0 = l.sum := by
  induction l with
  | nil => simp
  | cons a t ih =>
    rw [List.length_cons, Finset.sum_range_succ']
    simp only [List.getD_cons_succ, List.getD_cons_zero, List.sum_cons, ih]
    omega

theorem accumPixel_inv (st st1 : Histogram F64 × Bool) (ndv : Nat) (v : F64)
    (h : accumPixel st ndv v = .ok st1) :
    st1.1.Counts.length = st.1.Counts.length ∧
    st1.1.Counts.sum + st1.1.NdvCount = st.1.Counts.sum + st.1.NdvCount + 1 ∧
    st1.1.toBinning = st.1.toBinning ∧ st1.1.DataCount = st.1.DataCount := by
  unfold accumPixel at h
  split at h
  · cases h
    exact ⟨rfl, by simp only; omega, rfl, rfl⟩
  · cases hb : st.1.toBinning.ToBin v with
    | error e => rw [hb] at h; cases h
    | ok bin =>
      rw [hb] at h
      simp only at h
      split at h
      · rename_i hr
        cases h
        refine ⟨by simp only [bumpCount, List.length_set], ?_, rfl, rfl⟩
        simp only [bumpCount]
        rw [sum_set_succ _ _ hr.2]
        omega
      · cases h

theorem accumulate_inv (pixels : List (Nat × F64)) (st st1 : Histogram F64 × Bool)
    (h : accumulate pixels st = .ok st1) :
    st1.1.Counts.length = st.1.Counts.length ∧
    st1.1.Counts.sum + st1.1.NdvCount = st.1.Counts.sum + st.1.NdvCount + pixels.length ∧
    st1.1.toBinning = st.1.toBinning ∧ st1.1.DataCount = st.1.DataCount := by
  induction pixels generalizing st with
  | nil =>
    simp only [accumulate] at h
    cases h
    simp
  | cons p rest ih =>
    simp only [accumulate] at h
    cases hp : accumPixel st p.1 p.2 with
    | error e => rw [hp] at h; cases h
    | ok st2 =>
      rw [hp] at h
      simp only at h
      obtain ⟨a1, a2, a3, a4⟩ := accumPixel_inv st st2 p.1 p.2 hp
      obtain ⟨b1, b2, b3, b4⟩ := ih st2 h
      refine ⟨b1.trans a1, ?_, b3.trans a3, b4.trans a4⟩
      rw [b2, a2, List.length_cons]
      omega

theorem accumulate_returns (b : Binning F64) (hn : 1 ≤ b.Nbins) (o : ℚ)
    (ho : b.Offset = F64.fin o) (hs : F64.gt b.Scale (F64.fin 0) = true)
    (pixels : List (Nat × F64)) (hv : ∀ p ∈ pixels, p.2 ≠ F64.nan)
    (st : Histogram F64 × Bool) (hb : st.1.toBinning = b)
    (hl : st.1.Counts.length = b.Nbins.toNat) :
    ∃ st1, accumulate pixels st = .ok st1 := by
  induction pixels generalizing st with
  | nil => exact ⟨st, rfl⟩
  | cons p rest ih =>
    have hstep : ∃ st2, accumPixel st p.1 p.2 = .ok st2 := by
      unfold accumPixel
      split
      · exact ⟨_, rfl⟩
      · obtain ⟨i, hi⟩ := ToBin_returns b o ho hs p.2 (hv p (List.mem_cons_self _ _))
        have hr := ToBin_ok_range b hn p.2 i hi
        rw [hb, hi]
        simp only
        rw [if_pos ⟨hr.1, by rw [hl]; omega⟩]
        exact ⟨_, rfl⟩
    obtain ⟨st2, h2⟩ := hstep
    obtain ⟨a1, _, a3, _⟩ := accumPixel_inv st st2 p.1 p.2 h2
    obtain ⟨st1, h1⟩ := ih (fun q hq => hv q (List.mem_cons_of_mem _ hq)) st2
      (a3.trans hb) (a1.trans hl)
    exact ⟨st1, by simp only [accumulate, h2, h1]⟩

theorem summarise_DataCount (sqrt : F64 → F64) (hg : Histogram F64)
    (hl : hg.Counts.length = hg.Nbins.toNat) :
    (summarise sqrt hg).DataCount = hg.DataCount + hg.Counts.sum := by
  simp only [summarise, bandStats]
  rw [foldl_range_add, ← hl, sum_range_getD]

/-- C15. For every band binning and every sequence of classified pixels, a histogram that
ComputeHistogram finishes has DataCount equal to the sum of Counts and DataCount + NdvCount
equal to the number of pixels processed; and for a binning with Nbins >= 1, a finite
Offset and Scale > 0 it does finish on every sequence of non-NaN values. -/
theorem ComputeHistogram_counts (sqrt : F64 → F64) (binning : Binning F64)
    (pixels : List (Nat × F64)) :
    (∀ hg, ComputeHistogramBand sqrt binning pixels = .ok hg →
      hg.DataCount = hg.Counts.sum ∧ hg.DataCount + hg.NdvCount = pixels.length) ∧
    (1 ≤ binning.Nbins → (∃ o, binning.Offset = F64.fin o) →
      F64.gt binning.Scale (F64.fin 0) = true → (∀ p ∈ pixels, p.2 ≠ F64.nan) →
      ∃ hg, ComputeHistogramBand sqrt binning pixels = .ok hg) := by
  constructor
  · intro hg h
    unfold ComputeHistogramBand allocHistogram at h
    by_cases hneg : binning.Nbins < 0
    · rw [if_pos hneg] at h
      cases h
    · rw [if_neg hneg] at h
      simp only at h
      cases hst : accumulate pixels
        ({ toBinning := binning, Max := F64.fin 0, Min := F64.fin 0, Mean := F64.fin 0,
           Stddev := F64.fin 0, DataCount := 0, NdvCount := 0,
           Counts := List.replicate binning.Nbins.toNat 0 }, false) with
      | error e => rw [hst] at h; cases h
      | ok st =>
        rw [hst] at h
        cases h
        obtain ⟨a1, a2, a3, a4⟩ := accumulate_inv pixels _ st hst
        simp only [List.length_replicate, List.sum_replicate, smul_eq_mul, mul_zero,
          zero_add, add_zero] at a1 a2 a3 a4
        have hl : st.1.Counts.length = st.1.Nbins.toNat := by
          rw [a1]
          have : st.1.toBinning.Nbins = binning.Nbins := by rw [a3]
          rw [this]
        have hd := summarise_DataCount sqrt st.1 hl
        rw [a4, zero_add] at hd
        refine ⟨hd, ?_⟩
        rw [hd]
        exact a2
  · rintro hn ⟨o, ho⟩ hs hv
    unfold ComputeHistogramBand allocHistogram
    rw [if_neg (by omega)]
    simp only
    obtain ⟨st1, h1⟩ := accumulate_returns binning hn o ho hs pixels hv
      ({ toBinning := binning, Max := F64.fin 0, Min := F64.fin 0, Mean := F64.fin 0,
         Stddev := F64.fin 0, DataCount := 0, NdvCount := 0,
         Counts := List.replicate binning.Nbins.toNat 0 }, false) rfl (by simp)
    rw [h1]
    exact ⟨_, rfl⟩

theorem bumpCount_comm (l : List Nat) (i j : Nat) :
    bumpCount (bumpCount l i) j = bumpCount (bumpCount l j) i := by
  by_cases h : i = j
  · subst h; rfl
  · unfold bumpCount
    have h1 : (l.set i (l.getD i 0 + 1)).getD j 0 = l.getD j 0 := by
      simp [List.getD_eq_getElem?_getD, List.getElem?_set_ne h]
    have h2 : (l.set j (l.getD j 0 + 1)).getD i 0 = l.getD i 0 := by
      simp [List.getD_eq_getElem?_getD, List.getElem?_set_ne (Ne.symm h)]
    rw [h1, h2, List.set_comm _ _ l h]

theorem F64.lt_chain {a b c : F64} (h1 : F64.lt a b = true) (h2 : F64.lt b c = true) :
    F64.lt a c = true := by
  cases a <;> cases b <;> cases c <;> simp [F64.lt] at h1 h2 ⊢
  exact lt_trans h1 h2

theorem F64.lt_cases {a b : F64} (ha : a ≠ F64.nan) (hb : b ≠ F64.nan) :
    F64.lt a b = true ∨ a = b ∨ F64.lt b a = true := by
  cases a <;> cases b <;> simp [F64.lt] at ha hb ⊢
  exact lt_trichotomy _ _

theorem F64.lt_self (a : F64) : F64.lt a a = false := by
  cases a <;> simp [F64.lt]

theorem F64.lt_flip {a b : F64} (h : F64.lt a b = true) : F64.lt b a = false := by
  cases a <;> cases b <;> simp [F64.lt] at h ⊢
  exact le_of_lt h

theorem trackMin_comm (f : Bool) (m p q : F64) (hp : p ≠ F64.nan) (hq : q ≠ F64.nan) :
    trackMin true (trackMin f m p) q = trackMin true (trackMin f m q) p := by
  have key : (if F64.lt q p = true then q else p) = (if F64.lt p q = true then p else q) := by
    rcases F64.lt_cases hp hq with h | h | h
    · rw [if_pos h, if_neg (by rw [F64.lt_flip h]; simp)]
    · subst h; simp
    · rw [if_pos h, if_neg (by rw [F64.lt_flip h]; simp)]
  cases f
  · simp only [trackMin, Bool.false_eq_true, if_false, if_true, F64.lt_self]
    exact key
  · simp only [trackMin, if_true]
    by_cases hpm : F64.lt p m = true
    · by_cases hqm : F64.lt q m = true
      · simp only [hpm, hqm, if_true]
        exact key
      · have : ¬ F64.lt q p = true := fun h => hqm (F64.lt_chain h hpm)
        simp [hpm, hqm, this]
    · by_cases hqm : F64.lt q m = true
      · have : ¬ F64.lt p q = true := fun h => hpm (F64.lt_chain h hqm)
        simp [hpm, hqm, this]
      · simp [hpm, hqm]

theorem trackMax_comm (f : Bool) (m p q : F64) (hp : p ≠ F64.nan) (hq : q ≠ F64.nan) :
    trackMax true (trackMax f m p) q = trackMax true (trackMax f m q) p := by
  have key : (if F64.lt p q = true then q else p) = (if F64.lt q p = true then p else q) := by
    rcases F64.lt_cases hp hq with h | h | h
    · rw [if_pos h, if_neg (by rw [F64.lt_flip h]; simp)]
    · subst h; simp
    · rw [if_pos h, if_neg (by rw [F64.lt_flip h]; simp)]
  cases f
  · simp only [trackMax, F64.gt, Bool.false_eq_true, if_false, if_true, F64.lt_self]
    exact key
  · simp only [trackMax, F64.gt, if_true]
    by_cases hpm : F64.lt m p = true
    · by_cases hqm : F64.lt m q = true
      · simp only [hpm, hqm, if_true]
        exact key
      · have : ¬ F64.lt p q = true := fun h => hqm (F64.lt_chain hpm h)
        simp [hpm, hqm, this]
    · by_cases hqm : F64.lt m q = true
      · have : ¬ F64.lt q p = true := fun h => hpm (F64.lt_chain hqm h)
        simp [hpm, hqm, this]
      · simp [hpm, hqm]

theorem accumPixel_ok (st st1 : Histogram F64 × Bool) (ndv : Nat) (v : F64) :
    accumPixel st ndv v = .ok st1 ↔
      (ndv ≠ 0 ∧ st1 = ({ st.1 with NdvCount := st.1.NdvCount + 1 }, st.2)) ∨
      (ndv = 0 ∧ ∃ bin, st.1.toBinning.ToBin v = .ok bin ∧ 0 ≤ bin ∧
        bin.toNat < st.1.Counts.length ∧
        st1 = ({ st.1 with
                  Counts := bumpCount st.1.Counts bin.toNat,
                  Min := trackMin st.2 st.1.Min v,
                  Max := trackMax st.2 st.1.Max v }, true)) := by
  unfold accumPixel
  by_cases hn : ndv ≠ 0
  · rw [if_pos hn]
    constructor
    · intro h; cases h; exact Or.inl ⟨hn, rfl⟩
    · rintro (⟨_, rfl⟩ | ⟨h0, _⟩)
      · rfl
      · exact absurd h0 hn
  · rw [if_neg hn]
    push_neg at hn
    cases hb : st.1.toBinning.ToBin v with
    | error e =>
      simp only
      constructor
      · intro h; cases h
      · rintro (⟨h0, _⟩ | ⟨_, bin, hbin, _⟩)
        · exact absurd hn h0
        · cases hbin
    | ok bin =>
      simp only
      by_cases hr : 0 ≤ bin ∧ bin.toNat < st.1.Counts.length
      · rw [if_pos hr]
        constructor
        · intro h; cases h
          exact Or.inr ⟨hn, bin, rfl, hr.1, hr.2, rfl⟩
        · rintro (⟨h0, _⟩ | ⟨_, bin1, hbin, _, _, rfl⟩)
          · exact absurd hn h0
          · cases hbin; rfl
      · rw [if_neg hr]
        constructor
        · intro h; cases h
        · rintro (⟨h0, _⟩ | ⟨_, bin1, hbin, h1, h2, _⟩)
          · exact absurd hn h0
          · cases hbin; exact absurd ⟨h1, h2⟩ hr

theorem accumPixel_swap (st st1 st2 : Histogram F64 × Bool) (p q : Nat × F64)
    (h1 : accumPixel st p.1 p.2 = .ok st1) (h2 : accumPixel st1 q.1 q.2 = .ok st2) :
    ∃ st3, accumPixel st q.1 q.2 = .ok st3 ∧ accumPixel st3 p.1 p.2 = .ok st2 := by
  rw [accumPixel_ok] at h1 h2
  rcases h1 with ⟨hp0, rfl⟩ | ⟨hp0, bp, hbp, hp1, hp2, rfl⟩
  · rcases h2 with ⟨hq0, rfl⟩ | ⟨hq0, bq, hbq, hq1, hq2, rfl⟩
    · refine ⟨_, (accumPixel_ok _ _ _ _).mpr (Or.inl ⟨hq0, rfl⟩), ?_⟩
      exact (accumPixel_ok _ _ _ _).mpr (Or.inl ⟨hp0, rfl⟩)
    · refine ⟨_, (accumPixel_ok _ _ _ _).mpr (Or.inr ⟨hq0, bq, hbq, hq1, hq2, rfl⟩), ?_⟩
      exact (accumPixel_ok _ _ _ _).mpr (Or.inl ⟨hp0, rfl⟩)
  · rcases h2 with ⟨hq0, rfl⟩ | ⟨hq0, bq, hbq, hq1, hq2, rfl⟩
    · refine ⟨_, (accumPixel_ok _ _ _ _).mpr (Or.inl ⟨hq0, rfl⟩), ?_⟩
      exact (accumPixel_ok _ _ _ _).mpr (Or.inr ⟨hp0, bp, hbp, hp1, hp2, rfl⟩)
    · simp only at hbq hq2
      have hpn := ToBin_ok_ne_nan _ _ _ hbp
      have hqn := ToBin_ok_ne_nan _ _ _ hbq
      have hq3 : bq.toNat < st.1.Counts.length := by
        simpa [bumpCount] using hq2
      refine ⟨_, (accumPixel_ok _ _ _ _).mpr (Or.inr ⟨hq0, bq, hbq, hq1, hq3, rfl⟩), ?_⟩
      refine (accumPixel_ok _ _ _ _).mpr (Or.inr ⟨hp0, bp, hbp, hp1, ?_, ?_⟩)
      · simpa [bumpCount] using hp2
      · simp only [bumpCount_comm st.1.Counts bp.toNat bq.toNat,
          trackMin_comm st.2 st.1.Min p.2 q.2 hpn hqn,
          trackMax_comm st.2 st.1.Max p.2 q.2 hpn hqn]

theorem accumulate_perm (l1 l2 : List (Nat × F64)) (hp : l1.Perm l2) :
    ∀ st st1, accumulate l1 st = .ok st1 → accumulate l2 st = .ok st1 := by
  induction hp with
  | nil => intro st st1 h; exact h
  | cons x _ ih =>
    intro st st1 h
    simp only [accumulate] at h ⊢
    cases hx : accumPixel st x.1 x.2 with
    | error e => rw [hx] at h; cases h
    | ok st2 =>
      rw [hx] at h
      exact ih st2 st1 h
  | swap x y l =>
    intro st st1 h
    simp only [accumulate] at h ⊢
    cases hy : accumPixel st y.1 y.2 with
    | error e => rw [hy] at h; cases h
    | ok st2 =>
      rw [hy] at h
      simp only at h
      cases hx : accumPixel st2 x.1 x.2 with
      | error e => rw [hx] at h; cases h
      | ok st3 =>
        rw [hx] at h
        simp only at h
        obtain ⟨st4, h4, h5⟩ := accumPixel_swap st st2 st3 y x hy hx
        rw [h4]
        simp only
        rw [h5]
        exact h
  | trans _ _ ih1 ih2 =>
    intro st st1 h
    exact ih2 st st1 (ih1 st st1 h)

theorem ComputeHistogramBand_perm (sqrt : F64 → F64) (binning : Binning F64)
    (l1 l2 : List (Nat × F64)) (hp : l1.Perm l2) (hg : Histogram F64)
    (h : ComputeHistogramBand sqrt binning l1 = .ok hg) :
    ComputeHistogramBand sqrt binning l2 = .ok hg := by
  unfold ComputeHistogramBand at h ⊢
  cases ha : allocHistogram binning with
  | error e => rw [ha] at h; cases h
  | ok hg0 =>
    rw [ha] at h
    simp only at h ⊢
    cases hacc : accumulate l1 (hg0, false) with
    | error e => rw [hacc] at h; cases h
    | ok st =>
      rw [hacc] at h
      rw [accumulate_perm l1 l2 hp _ _ hacc]
      exact h

/-- C16. ComputeHistogram's result on a band does not depend on traversal order: for any
permutation of the band's classified pixels, ComputeHistogram finishes with a histogram on
one order exactly when it finishes with the same histogram (the same Counts, NdvCount,
DataCount, Min, Max, and with them Mean and Stddev) on the other. -/
theorem ComputeHistogram_order_independent (sqrt : F64 → F64) (binning : Binning F64)
    (pixels permuted : List (Nat × F64)) (hp : pixels.Perm permuted) (hg : Histogram F64) :
    ComputeHistogramBand sqrt binning pixels = .ok hg ↔
      ComputeHistogramBand sqrt binning permuted = .ok hg :=
  ⟨ComputeHistogramBand_perm sqrt binning pixels permuted hp hg,
    ComputeHistogramBand_perm sqrt binning permuted pixels hp.symm hg⟩

/-- C15 witness: two bins, two data pixels and one masked pixel. -/
theorem ComputeHistogram_counts_witness :
    ∃ hg, ComputeHistogramBand (fun x => x) ⟨2, F64.fin 0, F64.fin 1⟩
        [(0, F64.fin 0), (1, F64.fin 7), (0, F64.fin 1)] = .ok hg ∧
      hg.DataCount = hg.Counts.sum ∧ hg.DataCount + hg.NdvCount = 3 := by
  obtain ⟨hg, h⟩ := (ComputeHistogram_counts (fun x => x) ⟨2, F64.fin 0, F64.fin 1⟩
    [(0, F64.fin 0), (1, F64.fin 7), (0, F64.fin 1)]).2 (by decide) ⟨0, rfl⟩
    (by simp [F64.gt, F64.lt]) (by simp)
  exact ⟨hg, h, (ComputeHistogram_counts (fun x => x) ⟨2, F64.fin 0, F64.fin 1⟩
    [(0, F64.fin 0), (1, F64.fin 7), (0, F64.fin 1)]).1 hg h⟩

/-- C16 witness: two data pixels in either order. -/
theorem ComputeHistogram_order_independent_witness :
    List.Perm [((0 : Nat), F64.fin 0), (0, F64.fin 1)] [(0, F64.fin 1), (0, F64.fin 0)] ∧
    ∀ hg, ComputeHistogramBand (fun x => x) ⟨2, F64.fin 0, F64.fin 1⟩
        [(0, F64.fin 0), (0, F64.fin 1)] = .ok hg ↔
      ComputeHistogramBand (fun x => x) ⟨2, F64.fin 0, F64.fin 1⟩
        [(0, F64.fin 1), (0, F64.fin 0)] = .ok hg :=
  ⟨List.Perm.swap _ _ _, fun hg =>
    ComputeHistogram_order_independent (fun x => x) ⟨2, F64.fin 0, F64.fin 1⟩ _ _
      (List.Perm.swap _ _ _) hg⟩

/-! ## Percentile window: the indices -/

theorem get_scale_from_percentile_window (impl : Nat) (histogram : Histogram F64)
    (output_range : Int) (from_percentile to_percentile : F64) :
    get_scale_from_percentile impl histogram output_range from_percentile to_percentile =
      (if (percentileWindow impl histogram from_percentile to_percentile).1 < 0
          ∨ (percentileWindow impl histogram from_percentile to_percentile).2 < 0 then
        .error .noWindow
      else
        .ok (((output_range - 1 : Int) : F64)
            / histogram.toBinning.FromBin
                (if (percentileWindow impl histogram from_percentile to_percentile).1
                    = (percentileWindow impl histogram from_percentile to_percentile).2
                  then histogram.Nbins - 1
                  else (percentileWindow impl histogram from_percentile to_percentile).2)
            - histogram.toBinning.FromBin
                (if (percentileWindow impl histogram from_percentile to_percentile).1
                    = (percentileWindow impl histogram from_percentile to_percentile).2
                  then 0
                  else (percentileWindow impl histogram from_percentile to_percentile).1),
          histogram.toBinning.FromBin
            (if (percentileWindow impl histogram from_percentile to_percentile).1
                = (percentileWindow impl histogram from_percentile to_percentile).2
              then 0
              else (percentileWindow impl histogram from_percentile to_percentile).1))) :=
  rfl

theorem foldlM_range_inv {β : Type} (f : β → Nat → Except Fault β) (I : Nat → β → Prop)
    (n : Nat) (b0 : β) (h0 : I 0 b0)
    (hstep : ∀ k, k < n → ∀ b, I k b → ∃ b1, f b k = .ok b1 ∧ I (k + 1) b1) :
    ∃ b1, (List.range n).foldlM f b0 = .ok b1 ∧ I n b1 := by
  induction n with
  | zero => exact ⟨b0, rfl, h0⟩
  | succ n ih =>
    obtain ⟨b1, hb1, hI⟩ := ih (fun k hk b hb => hstep k (Nat.lt_succ_of_lt hk) b hb)
    obtain ⟨b2, hb2, hI2⟩ := hstep n (Nat.lt_succ_self n) b1 hI
    refine ⟨b2, ?_, hI2⟩
    rw [List.range_succ, List.foldlM_append, hb1]
    simp only [bind, Except.bind, List.foldlM_cons, List.foldlM_nil, hb2]
    rfl

theorem set_same {α : Type} (l : List α) (k : Nat) (p : α) (h : l[k]? = some p) :
    l.set k p = l := by
  induction l generalizing k with
  | nil => rfl
  | cons a t ih =>
    cases k with
    | zero =>
      simp only [List.getElem?_cons_zero, Option.some.injEq] at h
      subst h; rfl
    | succ j =>
      simp only [List.getElem?_cons_succ] at h
      simp only [List.set_cons_succ, ih j h]

theorem Float64_size : DataType.Size (Int.tdiv GDT.Float64 8) = 0 := by decide

theorem isnan_byte_Float64 (b : Nat) :
    gdal_scalar_pointer_isnan (Dyn.byte b) GDT.Float64 = .ok false := rfl

theorem maskSetup_Float64 (enc : ByteImage) (band_p : List F64) :
    ∃ in_p, maskSetup enc band_p (List.replicate band_p.length GDT.Float64)
        = .ok (in_p, List.replicate band_p.length 0) ∧
      in_p.length = band_p.length ∧ ∀ p ∈ in_p, p.length = 8 := by
  obtain ⟨acc, hacc, h1, h2, h3⟩ := foldlM_range_inv
    (fun (acc : List (List Nat) × List Nat) i =>
      match band_p[i]?, (List.replicate band_p.length GDT.Float64)[i]? with
      | some v, some dt =>
        .ok (acc.1 ++ [convertToBytes enc v], acc.2 ++ [DataType.Size (Int.tdiv dt 8)])
      | _, _ => .error .indexOutOfRange)
    (fun k acc => acc.1.length = k ∧ (∀ p ∈ acc.1, p.length = 8) ∧ acc.2 = List.replicate k 0)
    band_p.length ([], []) ⟨rfl, by simp, rfl⟩
    (by
      intro k hk acc ⟨a1, a2, a3⟩
      beta_reduce
      have e1 : band_p[k]? = some band_p[k] := List.getElem?_eq_getElem hk
      have e2 : (List.replicate band_p.length GDT.Float64)[k]? = some GDT.Float64 :=
        List.getElem?_replicate_of_lt hk
      refine ⟨_, by rw [e1, e2], ?_, ?_, ?_⟩
      · simp [a1]
      · intro p hp
        rcases List.mem_append.mp hp with hp | hp
        · exact a2 p hp
        · rw [List.mem_singleton] at hp
          rw [hp]
          exact enc.length_eq _
      · simp only [a3, Float64_size]
        exact (List.replicate_succ' k 0).symm)
  obtain ⟨in_p, sizes⟩ := acc
  simp only at h1 h2 h3
  subst h3
  exact ⟨in_p, hacc, h1, h2⟩

theorem nanMask_Float64 (in_p : List (List Nat)) (L : Nat) (hl : in_p.length = L)
    (h8 : ∀ p ∈ in_p, p.length = 8) :
    nanMask in_p (List.replicate L GDT.Float64) L = .ok 0 := by
  obtain ⟨m, hm, hI⟩ := foldlM_range_inv
    (fun (m : Nat) j =>
      match in_p[j]?, (List.replicate L GDT.Float64)[j]? with
      | some (b :: _), some dt =>
        (gdal_scalar_pointer_isnan (Dyn.byte b) dt).map (fun r => if r then 1 else m)
      | _, _ => .error .indexOutOfRange)
    (fun _ m => m = 0) L 0 rfl
    (by
      intro k hk m hm
      beta_reduce
      have hk1 : k < in_p.length := by omega
      have e1 : in_p[k]? = some in_p[k] := List.getElem?_eq_getElem hk1
      have e2 : (List.replicate L GDT.Float64)[k]? = some GDT.Float64 :=
        List.getElem?_replicate_of_lt hk
      have hlen := h8 in_p[k] (List.getElem_mem _)
      cases hp : in_p[k] with
      | nil => rw [hp] at hlen; simp at hlen
      | cons b rest =>
        refine ⟨m, ?_, hm⟩
        rw [e1, e2, hp]
        simp only [isnan_byte_Float64, Except.map]
        simp)
  rw [hI] at hm
  exact hm

theorem advance_zero (in_p : List (List Nat)) (L : Nat) (hl : in_p.length = L) :
    advance in_p (List.replicate L 0) L = .ok in_p := by
  obtain ⟨acc, hacc, hI⟩ := foldlM_range_inv
    (fun (acc : List (List Nat)) band_idx =>
      match acc[band_idx]?, (List.replicate L 0)[band_idx]? with
      | some p, some sz =>
        if sz ≤ p.length then .ok (acc.set band_idx (p.drop sz)) else .error .indexOutOfRange
      | _, _ => .error .indexOutOfRange)
    (fun _ acc => acc = in_p) L in_p rfl
    (by
      intro k hk acc hacc
      beta_reduce
      subst hacc
      have hk1 : k < acc.length := by omega
      have e1 : acc[k]? = some acc[k] := List.getElem?_eq_getElem hk1
      have e2 : (List.replicate acc.length 0)[k]? = some 0 := by
        rw [hl]; exact List.getElem?_replicate_of_lt hk
      refine ⟨acc, ?_, rfl⟩
      rw [hl] at e2
      rw [e1, e2]
      simp only [Nat.zero_le, if_true, List.drop_zero]
      rw [set_same acc k _ e1])
  rw [hI] at hacc
  exact hacc

theorem pixelLoop_Float64 (slabs : List NdvSlab) (invert : Bool) (L : Nat)
    (in_p : List (List Nat)) (hl : in_p.length = L) (h8 : ∀ p ∈ in_p, p.length = 8)
    (n : Nat) :
    pixelLoop slabs invert (List.replicate L GDT.Float64) (List.replicate L 0) L (n + 1) in_p
      = (slabsMask slabs (List.replicate L GDT.Float64) L 0).map
          (fun c => List.replicate (n + 1) (if invert then invertMask c else c)) := by
  induction n with
  | zero =>
    simp only [pixelLoop, nanMask_Float64 in_p L hl h8, advance_zero in_p L hl, bind,
      Except.bind, pure, Except.pure]
    cases slabsMask slabs (List.replicate L GDT.Float64) L 0 with
    | error e => rfl
    | ok c => rfl
  | succ n ih =>
    rw [pixelLoop]
    simp only [nanMask_Float64 in_p L hl h8, advance_zero in_p L hl, bind, Except.bind, ih]
    cases slabsMask slabs (List.replicate L GDT.Float64) L 0 with
    | error e => rfl
    | ok c => rfl

theorem mapM_ok_length {α β : Type} (f : α → Except Fault β) (l : List α) (r : List β)
    (h : l.mapM f = .ok r) : r.length = l.length := by
  induction l generalizing r with
  | nil =>
    rw [List.mapM_nil] at h
    cases h
    rfl
  | cons a t ih =>
    rw [List.mapM_cons] at h
    cases ha : f a with
    | error e => rw [ha] at h; cases h
    | ok b =>
      cases ht : t.mapM f with
      | error e => rw [ha, ht] at h; cases h
      | ok bs =>
        rw [ha, ht] at h
        cases h
        simp only [List.length_cons, ih bs ht]

theorem GetNdvMaskB_Float64 (enc : ByteImage) (self : NdvDef) (band_p : List F64) (n : Nat) :
    self.GetNdvMaskB enc band_p (List.replicate band_p.length GDT.Float64) n =
      match n with
      | 0 => .ok []
      | k + 1 =>
        (slabsMask self.Slabs (List.replicate band_p.length GDT.Float64) band_p.length 0).map
          (fun c => List.replicate (k + 1) (if self.Invert then invertMask c else c)) := by
  obtain ⟨in_p, hs, hl, h8⟩ := maskSetup_Float64 enc band_p
  simp only [NdvDef.GetNdvMaskB, hs, bind, Except.bind]
  cases n with
  | zero => rfl
  | succ k => exact pixelLoop_Float64 self.Slabs self.Invert band_p.length in_p hl h8 k

theorem GetNdvMaskC_closed (enc : ByteImage) (self : NdvDef) (bands : List (List F64))
    (n : Nat) (m : List Nat) (h : self.GetNdvMaskC enc bands n = .ok m) :
    (match n with
      | 0 => (.ok [] : Except Fault (List Nat))
      | k + 1 =>
        (slabsMask self.Slabs (List.replicate bands.length GDT.Float64) bands.length 0).map
          (fun c => List.replicate (k + 1) (if self.Invert then invertMask c else c)))
      = .ok m := by
  simp only [NdvDef.GetNdvMaskC, bind, Except.bind] at h
  cases hb : List.mapM (fun v => match v with
      | x :: _ => (Except.ok x : Except Fault F64)
      | [] => .error .indexOutOfRange) bands with
  | error e => rw [hb] at h; cases h
  | ok band_p =>
    rw [hb] at h
    simp only at h
    have hlen := mapM_ok_length _ bands band_p hb
    have hdt : List.map (fun _ => GDT.Float64) bands
        = List.replicate band_p.length GDT.Float64 := by
      rw [hlen]; simp
    rw [hdt, GetNdvMaskB_Float64, hlen] at h
    exact h

/-- C21. The mask GetNdvMaskC writes does not depend on the pixel values: for every rule set
and any two blocks with the same band count and the same pixel count, whenever both calls
complete they write the same mask, and that mask holds one value at every pixel position. -/
theorem GetNdvMaskC_ignores_values (enc : ByteImage) (self : NdvDef)
    (block1 block2 : List (List F64)) (num_pixels : Nat) (mask1 mask2 : List Nat)
    (hbands : block1.length = block2.length)
    (h1 : self.GetNdvMaskC enc block1 num_pixels = .ok mask1)
    (h2 : self.GetNdvMaskC enc block2 num_pixels = .ok mask2) :
    mask1 = mask2 ∧ ∃ c, mask1 = List.replicate num_pixels c := by
  have c1 := GetNdvMaskC_closed enc self block1 num_pixels mask1 h1
  have c2 := GetNdvMaskC_closed enc self block2 num_pixels mask2 h2
  rw [hbands] at c1
  constructor
  · have := c1.symm.trans c2
    exact Except.ok.inj this
  · cases num_pixels with
    | zero =>
      simp only at c1
      cases c1
      exact ⟨0, rfl⟩
    | succ k =>
      simp only at c1
      cases hs : slabsMask self.Slabs (List.replicate block2.length GDT.Float64)
          block2.length 0 with
      | error e => rw [hs] at c1; cases c1
      | ok c =>
        rw [hs] at c1
        exact ⟨_, (Except.ok.inj c1).symm⟩

/-- C21 witness: no slabs, one band, two pixels; the blocks differ in every value. -/
theorem GetNdvMaskC_ignores_values_witness :
    [[F64.fin 1, F64.fin 2]].length = [[F64.nan, F64.fin 7]].length ∧
    NdvDef.GetNdvMaskC zeroImage ⟨[], false⟩ [[F64.fin 1, F64.fin 2]] 2 = .ok [0, 0] ∧
    NdvDef.GetNdvMaskC zeroImage ⟨[], false⟩ [[F64.nan, F64.fin 7]] 2 = .ok [0, 0] ∧
    ([0, 0] = [0, 0] ∧ ∃ c, [0, 0] = List.replicate 2 c) :=
  ⟨rfl, rfl, rfl,
    GetNdvMaskC_ignores_values zeroImage ⟨[], false⟩ [[F64.fin 1, F64.fin 2]]
      [[F64.nan, F64.fin 7]] 2 [0, 0] [0, 0] rfl rfl rfl⟩

/-! ## The OutNdv bump -/

/-- C22, the code at failing inputs. `uint8(output_range)` is 0 for output_range = 256, so
the test OutNdv < uint8(output_range)/2 is OutNdv < 0 and never holds: the bump always
decrements. With OutNdv = 0 a byte 0 wraps to 255, in the linear step and in the table
step alike, and with OutNdv = 5 < 128 a byte 5 becomes 4, not 6. A byte other than OutNdv
is unchanged. -/
theorem avoidOutNdv_always_decrements :
    toUint8 256 / 2 = 0 ∧
    (∀ OutNdv v : Nat,
      avoidOutNdv OutNdv 256 v = if v = OutNdv then (v + 255) % 256 else v) ∧
    avoidOutNdv 0 256 0 = 255 ∧
    avoidOutNdv 5 256 5 = 4 ∧
    (∀ impl : Nat, linearPixel impl 0 256 (F64.fin 1) (F64.fin 0) 0 (F64.fin 0) = 255) ∧
    tablePostprocess true ⟨[⟨[(F64.fin 0, F64.fin 0)]⟩], false⟩ 0 256 [[0, 1]] = [[255, 1]] := by
  have h0 : toUint8 256 / 2 = 0 := by decide
  refine ⟨h0, ?_, ?_, ?_, ?_, rfl⟩
  · intro OutNdv v
    unfold avoidOutNdv
    rw [h0]
    simp
  · decide
  · decide
  · intro impl
    norm_num [linearPixel, linearMap, F64.sub_def, F64.mul_def, F64.sub, F64.add, F64.neg,
      F64.mul, F64.lt, F64.gt, F64.intCast_def, F64.toUint8, F64.truncQ, avoidOutNdv, toUint8]

end Stretch
